import Mathlib

/-!
dns-filter: the query-handling pipeline

A shallow embedding of `main.go` (performLookup, processLookupQuery,
handleDNSRequest) and of `config.go` (parseConfigFile) of the dns-filter
forwarder, and theorems about it.

Modelling conventions
* Go strings are Lean `String`s (texts); `strings.Contains` is the substring
  test on their characters, `==` is equality.
* `uint16` record types and opcodes are `Nat`; `int64` ports are `Int`. No
  arithmetic is done on them, only equality tests and `%d` printing.
* A Go slice that can be `nil` is an `Option (List _)`: `none` is the nil
  slice, `some []` an allocated slice of length zero.
* A Go `error` is an `Option GoError`: `none` is the nil error.
* The network is an oracle `Upstream`; every side effect (an exchange with an
  upstream server, a line handed to the logger, a message written to the
  client) is recorded in an explicit `World` that the functions thread.
* The configuration file is given by its decoded form, the values that
  json.Unmarshal stores in a `map[string]interface{}`; the file system and the
  working directory are oracles of a `ConfigEnv`.
-/

namespace DnsFilter

/-! ## Constants of the DNS library used by the program -/

/-- Record type A of the DNS library (dns.TypeA). -/
def TypeA : Nat := 1
/-- Record type CNAME of the DNS library (dns.TypeCNAME). -/
def TypeCNAME : Nat := 5
/-- Record type MX of the DNS library (dns.TypeMX). -/
def TypeMX : Nat := 15
/-- Record type TXT of the DNS library (dns.TypeTXT). -/
def TypeTXT : Nat := 16
/-- Record type AAAA of the DNS library (dns.TypeAAAA). -/
def TypeAAAA : Nat := 28
/-- Record type ANY of the DNS library (dns.TypeANY), the value the
configuration stores for a filter of type "ALL". -/
def TypeANY : Nat := 255

/-- Opcode of a standard query (dns.OpcodeQuery). -/
def OpcodeQuery : Nat := 0
/-- Opcode of a notify message (dns.OpcodeNotify). -/
def OpcodeNotify : Nat := 4
/-- Opcode of an update message (dns.OpcodeUpdate). -/
def OpcodeUpdate : Nat := 5

/-! ## Data model (main.go, config.go and the boundary types) -/

/-- The struct DNSFilter of main.go. -/
structure DNSFilter where
  Host : String
  QueryType : Nat
  ExactMatching : Bool
deriving DecidableEq, Repr

/-- The struct DNSForwardingServer of main.go. -/
structure DNSForwardingServer where
  IPAddress : String
  Port : Int
  Protocol : String
deriving DecidableEq, Repr

/-- The struct DNSConfig of config.go (the global `config` of main.go, passed
explicitly). -/
structure DNSConfig where
  Host : String
  Port : Int
  Forwarders : List DNSForwardingServer
  Filters : List DNSFilter
  Logfile : String
deriving DecidableEq, Repr

/-- One question of a DNS message: dns.Question, its name and type. -/
structure Question where
  Name : String
  Qtype : Nat
deriving DecidableEq, Repr

/-- A resource record (dns.RR): `Name` is what `Header().Name` returns. -/
structure RR where
  Name : String
  Rrtype : Nat
  Rdata : String
deriving DecidableEq, Repr

/-- The fields of dns.Msg that the program reads or writes. -/
structure Msg where
  Id : Nat
  Response : Bool
  Opcode : Nat
  Compress : Bool
  Question : List Question
  Answer : Option (List RR)
deriving DecidableEq, Repr

/-- An error value returned by `client.Exchange`. -/
structure NetError where
  text : String
deriving DecidableEq, Repr

/-- The non-nil error values that flow through main.go: an error handed back by
`client.Exchange`, or the value made by
`errors.New("Empty results should never be nil!!!!")` in processLookupQuery. -/
inductive GoError where
  | exchange (e : NetError)
  | nilResults
deriving DecidableEq, Repr

/-- One call of `client.Exchange(query, serverString)`: the question of the
query built by `query.SetQuestion(host, resultType)` and the target. -/
structure Exchange where
  query : Question
  server : String
deriving DecidableEq, Repr

/-- A call of logMessage, by call site. -/
inductive LogEntry where
  | communicating (serverString : String) (replyErr : NetError)
  | duringQuery (queryErr : GoError)
deriving DecidableEq, Repr

/-- The effects performed so far, each list in the order of occurrence. -/
structure World where
  exchanges : List Exchange
  logs : List LogEntry
  written : List Msg
deriving DecidableEq, Repr

/-- The behaviour of the upstream servers: what `client.Exchange` returns for a
query sent to a target, given how many exchanges were performed before it. The
count lets a server answer differently each time it is contacted; a reply is
the parsed message, of which the program reads `Answer`. -/
abbrev Upstream := Nat → Question → String → Except NetError Msg

/-! ## strings.Contains -/

/-- Test that `s` begins with `sub`, on character lists. -/
def startsWith : List Char → List Char → Bool
  | _, [] => true
  | [], _ :: _ => false
  | c :: cs, d :: ds => if c = d then startsWith cs ds else false

/-- Test that `sub` occurs in `s`, on character lists. -/
def containsChars : List Char → List Char → Bool
  | [], sub => startsWith [] sub
  | c :: cs, sub => if startsWith (c :: cs) sub then true else containsChars cs sub

/-- The library function `strings.Contains(s, substr)`. -/
def stringsContains (s substr : String) : Bool :=
  containsChars s.data substr.data

/-! ## performLookup (main.go, lines 59-134) -/

/-- The filter loop of performLookup (lines 68-87); the value is the flag
`processLookupRequest` after the loop. -/
def filterLoop (host : String) (resultType : Nat) : List DNSFilter → Bool
  | [] => true
  | filter :: rest =>
    if !filter.ExactMatching then
      if stringsContains host filter.Host ∧ filter.QueryType = resultType then
        false
      else
        filterLoop host resultType rest
    else
      if filter.Host ++ "." = host ∧ filter.QueryType = resultType then
        false
      else
        filterLoop host resultType rest

/-- The string `fmt.Sprintf("%s:%d", server.IPAddress, server.Port)`. -/
def serverString (server : DNSForwardingServer) : String :=
  server.IPAddress ++ ":" ++ toString server.Port

/-- The local variables `results` and `dnsServerErr` of performLookup, which
are also its two return values. -/
structure Lookup where
  results : Option (List RR)
  dnsServerErr : Option GoError
deriving DecidableEq, Repr

/-- The forwarder loop of performLookup (lines 100-128). -/
def forwardLoop (up : Upstream) (query : Question) :
    List DNSForwardingServer → Lookup → World → Lookup × World
  | [], st, w => (st, w)
  | server :: rest, st, w =>
    match up w.exchanges.length query (serverString server) with
    | .ok reply =>
      ({ results := reply.Answer, dnsServerErr := none },
       { w with exchanges := w.exchanges ++ [⟨query, serverString server⟩] })
    | .error replyErr =>
      forwardLoop up query rest
        { st with dnsServerErr := some (.exchange replyErr) }
        { w with
          exchanges := w.exchanges ++ [⟨query, serverString server⟩]
          logs := w.logs ++ [.communicating (serverString server) replyErr] }

/-- The function performLookup of main.go. -/
def performLookup (config : DNSConfig) (up : Upstream) (host : String)
    (resultType : Nat) (w : World) : Lookup × World :=
  let processLookupRequest := filterLoop host resultType config.Filters
  let st : Lookup := { results := some [], dnsServerErr := none }
  if processLookupRequest then
    forwardLoop up ⟨host, resultType⟩ config.Forwarders st w
  else
    (st, w)

/-! ## processLookupQuery (main.go, lines 136-162) -/

/-- The inner loop of processLookupQuery (lines 152-156): append to `answers`
the results whose own name is the name of the question. -/
def appendMatching (qName : String) : List RR → List RR → List RR
  | [], answers => answers
  | result :: rest, answers =>
    if result.Name = qName then
      appendMatching qName rest (answers ++ [result])
    else
      appendMatching qName rest answers

/-- The loop of processLookupQuery over the questions (lines 140-157): the
accumulated `answers`, or the error of the early return. -/
def questionLoop (config : DNSConfig) (up : Upstream) :
    List Question → List RR → World → Except GoError (List RR) × World
  | [], answers, w => (.ok answers, w)
  | q :: rest, answers, w =>
    let r := performLookup config up q.Name q.Qtype w
    match r.1.dnsServerErr with
    | some resultsErr => (.error resultsErr, r.2)
    | none =>
      match r.1.results with
      | none => (.error .nilResults, r.2)
      | some results =>
        questionLoop config up rest (appendMatching q.Name results answers) r.2

/-- The outcome of processLookupQuery: the message after the call, the
returned error, and the effects. -/
structure QueryResult where
  req : Msg
  err : Option GoError
  world : World
deriving DecidableEq, Repr

/-- The function processLookupQuery of main.go. -/
def processLookupQuery (config : DNSConfig) (up : Upstream) (req : Msg)
    (w : World) : QueryResult :=
  match questionLoop config up req.Question [] w with
  | (.error e, w1) => { req := req, err := some e, world := w1 }
  | (.ok answers, w1) =>
    { req := { req with Answer := some answers }, err := none, world := w1 }

/-! ## handleDNSRequest (main.go, lines 164-181) -/

/-- The zero value made by `new(dns.Msg)`. -/
def newMsg : Msg :=
  { Id := 0, Response := false, Opcode := 0, Compress := false,
    Question := [], Answer := none }

/-- The library method `response.SetReply(req)` on the modelled fields: the
reply takes the id and opcode of the request, is marked a response, and
carries the first question of the request if there is one. It does not touch
`Answer` or `Compress`. -/
def SetReply (response req : Msg) : Msg :=
  { response with
    Id := req.Id
    Response := true
    Opcode := req.Opcode
    Question := match req.Question with
      | [] => response.Question
      | q :: _ => [q] }

/-- The function handleDNSRequest of main.go; `rw.WriteMsg(response)` appends
the reply to `written`. -/
def handleDNSRequest (config : DNSConfig) (up : Upstream) (req : Msg)
    (w : World) : World :=
  let response := { SetReply newMsg req with Compress := false }
  if req.Opcode = OpcodeQuery then
    let r := processLookupQuery config up response w
    let w1 : World :=
      match r.err with
      | some queryErr => { r.world with logs := r.world.logs ++ [.duringQuery queryErr] }
      | none => r.world
    { w1 with written := w1.written ++ [r.req] }
  else
    { w with written := w.written ++ [response] }


/-! ## Configuration (config.go) and logging set-up (log.go) -/

/-- A value that json.Unmarshal stores in an `interface{}`: nil, a bool, a
float64 (given by its value), a string, a `[]interface{}` or a
`map[string]interface{}` (given by its entries, whose keys are distinct). -/
inductive JSON where
  | null
  | bool (b : Bool)
  | number (value : Rat)
  | string (s : String)
  | array (items : List JSON)
  | object (entries : List (String × JSON))

/-- The builtin `len` on a string: its number of bytes. -/
def len (s : String) : Nat := s.utf8ByteSize

/-- The map index expression `m[key]` on a `map[string]interface{}`: the value
stored under the key, or nil. -/
def index (m : List (String × JSON)) (key : String) : JSON :=
  match m.lookup key with
  | some v => v
  | none => .null

/-- The type assertion `v.(string)` in its two-value form. -/
def assertString : JSON → Option String
  | .string s => some s
  | _ => none

/-- The type assertion `v.(float64)` in its two-value form. -/
def assertFloat64 : JSON → Option Rat
  | .number value => some value
  | _ => none

/-- The type assertion `v.(int64)` in its two-value form. No value stored by
json.Unmarshal has the dynamic type int64 (a number is stored as a float64), so
the assertion fails on every decoded value. -/
def assertInt64 : JSON → Option Int
  | .null => none
  | .bool _ => none
  | .number _ => none
  | .string _ => none
  | .array _ => none
  | .object _ => none

/-- The type assertion `v.([]interface{})` in its two-value form. -/
def assertSlice : JSON → Option (List JSON)
  | .array items => some items
  | _ => none

/-- The type assertion `v.(map[string]interface{})`; in its one-value form,
used on the entries of the arrays, `none` is a run-time panic. -/
def assertMap : JSON → Option (List (String × JSON))
  | .object entries => some entries
  | _ => none

/-- The errors that parseConfigFile returns: the error of reading or decoding
the file, the three messages built with fmt.Sprintf, the error of os.Getwd. -/
inductive ConfigError where
  | load (text : String)
  | invalidProtocol (forwardProtocol forwardHost : String)
  | invalidMatching (matchingType filterHost : String)
  | missingMatching (filterHost : String)
  | getwd (text : String)
deriving DecidableEq, Repr

/-- How a piece of parseConfigFile ends: with a value, with the early return
`return nil, err`, or with a run-time panic. -/
inductive Outcome (α : Type) where
  | ok (a : α)
  | error (e : ConfigError)
  | panic
deriving DecidableEq, Repr

/-- What parseConfigFile uses of its surroundings: `load` is ioutil.ReadFile
followed by json.Unmarshal into a `map[string]interface{}` (the decoded map, or
the text of the error of either), `int64` the conversion of a float64 to int64,
`getwd` is os.Getwd, `pathJoin` and `pathDir` are path.Join and path.Dir,
`stat` is os.Stat on a directory (`none` when it fails, otherwise whether it is
a directory) and `openFile` tells whether os.OpenFile on the log file
succeeds. -/
structure ConfigEnv where
  load : String → Except String (List (String × JSON))
  int64 : Rat → Int
  getwd : Except String String
  pathJoin : String → String → String
  pathDir : String → String
  stat : String → Option Bool
  openFile : String → Bool

/-- The function setupDefaultDNSForwardingServers of config.go. -/
def setupDefaultDNSForwardingServers : List DNSForwardingServer :=
  let hurricaneElectric1 : DNSForwardingServer := ⟨"74.82.42.42", 53, "udp"⟩
  let opennic1 : DNSForwardingServer := ⟨"107.150.40.234", 53, "udp"⟩
  let opennic2 : DNSForwardingServer := ⟨"162.211.64.20", 53, "udp"⟩
  let opennic3 : DNSForwardingServer := ⟨"50.116.23.211", 53, "udp"⟩
  let opennic4 : DNSForwardingServer := ⟨"50.116.40.226", 53, "udp"⟩
  let freedns1 : DNSForwardingServer := ⟨"37.235.1.174", 53, "udp"⟩
  let freedns2 : DNSForwardingServer := ⟨"37.235.1.177", 53, "udp"⟩
  let google1 : DNSForwardingServer := ⟨"8.8.8.8", 53, "udp"⟩
  let google2 : DNSForwardingServer := ⟨"8.8.4.4", 53, "udp"⟩
  [hurricaneElectric1, opennic1, opennic2, opennic3, opennic4, freedns1, freedns2,
   google1, google2]

/-- The loop of parseConfigFile over the entries of "forwarders" (lines
121-170), with the servers collected so far. -/
def forwardersLoop : List JSON → List DNSForwardingServer → Outcome (List DNSForwardingServer)
  | [], dnsServers => .ok dnsServers
  | forwardInterface :: rest, dnsServers =>
    match assertMap forwardInterface with
    | none => .panic
    | some forwardMap =>
      match assertString (index forwardMap "host") with
      | none => forwardersLoop rest dnsServers
      | some forwardHost =>
        if len forwardHost < len "8.8.8.8" then
          forwardersLoop rest dnsServers
        else
          let forwardPort : Int :=
            match assertInt64 (index forwardMap "port") with
            | some p => p
            | none => 53
          match assertString (index forwardMap "protocol") with
          | none => forwardersLoop rest (dnsServers ++ [⟨forwardHost, forwardPort, "udp"⟩])
          | some forwardProtocol =>
            if forwardProtocol ≠ "udp" ∧ forwardProtocol ≠ "tcp" then
              .error (.invalidProtocol forwardProtocol forwardHost)
            else
              forwardersLoop rest (dnsServers ++ [⟨forwardHost, forwardPort, forwardProtocol⟩])

/-- The part of parseConfigFile that computes `config.Forwarders` (lines
111-179). -/
def parseForwarders (configMap : List (String × JSON)) : Outcome (List DNSForwardingServer) :=
  match assertSlice (index configMap "forwarders") with
  | none => .ok setupDefaultDNSForwardingServers
  | some forwardingSlice =>
    match forwardersLoop forwardingSlice [] with
    | .ok dnsServers =>
      if dnsServers.length < 1 then .ok setupDefaultDNSForwardingServers else .ok dnsServers
    | .error e => .error e
    | .panic => .panic

/-- The value of `filterInt` for a filter type (lines 205-224). -/
def filterIntOf (filterType : String) : Nat :=
  if filterType ≠ "ALL" then
    if filterType = "AAAA" then TypeAAAA
    else if filterType = "A" then TypeA
    else if filterType = "MX" then TypeMX
    else if filterType = "TXT" then TypeTXT
    else if filterType = "CNAME" then TypeCNAME
    else TypeANY
  else TypeANY

/-- The loop of parseConfigFile over the entries of "filters" (lines 188-261),
with the filters collected so far. -/
def filtersLoop : List JSON → List DNSFilter → Outcome (List DNSFilter)
  | [], dnsFilters => .ok dnsFilters
  | filterInterface :: rest, dnsFilters =>
    match assertMap filterInterface with
    | none => .panic
    | some filterMap =>
      match assertString (index filterMap "host") with
      | none => filtersLoop rest dnsFilters
      | some filterHost =>
        if len filterHost < len "a.io" then
          filtersLoop rest dnsFilters
        else
          let filterType : String :=
            match assertString (index filterMap "type") with
            | some t => t
            | none => "ALL"
          let filterInt := filterIntOf filterType
          if filterType = "ALL" then
            filtersLoop rest (dnsFilters ++ [⟨filterHost, filterInt, false⟩])
          else
            match assertString (index filterMap "matching") with
            | some matchingType =>
              if matchingType = "contains" then
                filtersLoop rest (dnsFilters ++ [⟨filterHost, filterInt, false⟩])
              else if matchingType = "exact" then
                filtersLoop rest (dnsFilters ++ [⟨filterHost, filterInt, true⟩])
              else
                .error (.invalidMatching matchingType filterHost)
            | none => .error (.missingMatching filterHost)

/-- The part of parseConfigFile that computes `config.Filters` (lines
182-265). -/
def parseFilters (configMap : List (String × JSON)) : Outcome (List DNSFilter) :=
  match assertSlice (index configMap "filters") with
  | some filterSlice => filtersLoop filterSlice []
  | none => .ok []

/-- The function setupLogging of log.go, as far as parseConfigFile depends on
it: `true` when it returns, `false` when it panics (the log directory is a
regular file, or the log file cannot be opened). -/
def setupLogging (env : ConfigEnv) (logFilePath : String) : Bool :=
  if len logFilePath > 0 then
    let directoryOk : Bool :=
      if logFilePath.data.head? ≠ some '/' then
        match env.stat (env.pathDir logFilePath) with
        | none => true
        | some isDir => isDir
      else true
    if directoryOk then env.openFile logFilePath else false
  else true

/-- The function parseConfigFile of config.go: `ok config` is the return of
`config, nil` and `error e` the return of `nil, err`. -/
def parseConfigFile (env : ConfigEnv) (configPath : String) : Outcome DNSConfig :=
  match env.load configPath with
  | .error configError => .error (.load configError)
  | .ok configMap =>
    let host : String :=
      match assertString (index configMap "host") with
      | some h => h
      | none => "localhost"
    let port : Rat :=
      match assertFloat64 (index configMap "port") with
      | some p => p
      | none => 1234
    match parseForwarders configMap with
    | .error e => .error e
    | .panic => .panic
    | .ok dnsServers =>
      match parseFilters configMap with
      | .error e => .error e
      | .panic => .panic
      | .ok dnsFilters =>
        let config : DNSConfig :=
          { Host := host, Port := env.int64 port, Forwarders := dnsServers,
            Filters := dnsFilters, Logfile := "" }
        match assertString (index configMap "logfile") with
        | some logFilePath =>
          if setupLogging env logFilePath then .ok config else .panic
        | none =>
          match env.getwd with
          | .error dirErr => .error (.getwd dirErr)
          | .ok currentDirectory =>
            if setupLogging env (env.pathJoin currentDirectory "filter-dns.log") then
              .ok config
            else .panic

/-- The host string of an entry of "filters", when the entry is a map that has
one. -/
def hostOf (entry : JSON) : Option String :=
  match entry with
  | .object fields => assertString (index fields "host")
  | _ => none

/-- The hosts of the entries of "filters" that are not dropped: the entries
with a host string of at least `len("a.io")` bytes, in their order. -/
def admittedHosts (items : List JSON) : List String :=
  (items.filterMap hostOf).filter (fun h => decide (len "a.io" ≤ len h))

/-- The entries of "filters" that are not dropped, as maps and in their order:
the entries with a host string of at least `len("a.io")` bytes. -/
def keptEntries (items : List JSON) : List (List (String × JSON)) :=
  items.filterMap (fun entry =>
    match entry with
    | .object fields =>
      match assertString (index fields "host") with
      | some h => if len "a.io" ≤ len h then some fields else none
      | none => none
    | _ => none)

/-- The statement that the rule `r` stands for the kept filter entry `fields`:
it has the host of the entry and, when the type of the entry is "ALL" or is no
string, it has the type ANY and is not exact. -/
def AdmittedAs (fields : List (String × JSON)) (r : DNSFilter) : Prop :=
  ∀ h, assertString (index fields "host") = some h →
    r.Host = h ∧
    ((assertString (index fields "type") = none ∨
        assertString (index fields "type") = some "ALL") →
      r.QueryType = TypeANY ∧ r.ExactMatching = false)

/-! ## The course of a query, question by question -/

/-- The statement that the questions `qs`, looked up one after the other from
the world `w`, are each either blocked by the filters or answered without error
by some forwarder after the earlier forwarders failed, the reply carrying a
present answer list. `rs` lists what each lookup yields (nothing for a blocked
question, the records of the reply otherwise) and `w2` is the world after the
last lookup. -/
inductive Resolved (config : DNSConfig) (up : Upstream) :
    World → List Question → List (List RR) → World → Prop where
  | done (w : World) : Resolved config up w [] [] w
  | blocked {w w2 : World} {q : Question} {qs : List Question} {rs : List (List RR)} :
      filterLoop q.Name q.Qtype config.Filters = false →
      Resolved config up w qs rs w2 →
      Resolved config up w (q :: qs) ([] :: rs) w2
  | answered {w w2 : World} {q : Question} {qs : List Question} {rs : List (List RR)}
      (k : Nat) (server : DNSForwardingServer) (reply : Msg) (recs : List RR) :
      filterLoop q.Name q.Qtype config.Filters = true →
      config.Forwarders[k]? = some server →
      (∀ i s, i < k → config.Forwarders[i]? = some s →
        ∃ e, up (w.exchanges.length + i) q (serverString s) = .error e) →
      up (w.exchanges.length + k) q (serverString server) = .ok reply →
      reply.Answer = some recs →
      Resolved config up (performLookup config up q.Name q.Qtype w).2 qs rs w2 →
      Resolved config up w (q :: qs) (recs :: rs) w2

/-! ## Scenarios used to evaluate the definitions -/

/-- A world in which nothing has happened yet. -/
def emptyWorld : World := { exchanges := [], logs := [], written := [] }

/-- An upstream in which every server answers every question with one record
of the asked name and type. -/
def answeringUpstream : Upstream := fun _ q _ =>
  .ok { Id := 0, Response := true, Opcode := OpcodeQuery, Compress := false,
        Question := [q], Answer := some [⟨q.Name, q.Qtype, "192.0.2.1"⟩] }

/-- A configuration whose only filter is the rule that config.go builds for a
filter entry with host "ads.example.com" and type "ALL". -/
def adsConfig : DNSConfig :=
  { Host := "localhost", Port := 1234,
    Forwarders := [⟨"8.8.8.8", 53, "udp"⟩],
    Filters := [⟨"ads.example.com", TypeANY, false⟩],
    Logfile := "" }

/-- A configuration with three forwarders and no filter. -/
def failoverConfig : DNSConfig :=
  { Host := "localhost", Port := 1234,
    Forwarders := [⟨"10.0.0.1", 53, "udp"⟩, ⟨"10.0.0.2", 53, "udp"⟩, ⟨"10.0.0.3", 5353, "tcp"⟩],
    Filters := [],
    Logfile := "" }

/-- The reply of the second forwarder of `failoverUpstream`: error-free, with
no answer record. -/
def emptyReply : Msg :=
  { Id := 0, Response := true, Opcode := OpcodeQuery, Compress := false,
    Question := [], Answer := none }

/-- An upstream in which 10.0.0.1 times out, 10.0.0.2 answers with no record
and every other server answers with one record. -/
def failoverUpstream : Upstream := fun n q s =>
  if s = "10.0.0.1:53" then .error ⟨"i/o timeout"⟩
  else if s = "10.0.0.2:53" then .ok emptyReply
  else answeringUpstream n q s

/-- An upstream in which no server can be reached; the error names the target. -/
def unreachableUpstream : Upstream := fun _ _ s => .error ⟨"unreachable " ++ s⟩

/-- A configuration with one forwarder and one filter, the non-exact rule
"ads.example.com" of type A. -/
def homeConfig : DNSConfig :=
  { Host := "localhost", Port := 1234,
    Forwarders := [⟨"8.8.8.8", 53, "udp"⟩],
    Filters := [⟨"ads.example.com", TypeA, false⟩],
    Logfile := "" }

/-- The reply of `cdnUpstream` for "example.com.": an alias record of that name
and the address record of the alias target. -/
def cdnReply : Msg :=
  { Id := 0, Response := true, Opcode := OpcodeQuery, Compress := false,
    Question := [⟨"example.com.", TypeA⟩],
    Answer := some [⟨"example.com.", TypeCNAME, "cdn.example.net."⟩,
                    ⟨"cdn.example.net.", TypeA, "192.0.2.7"⟩] }

/-- An upstream that answers the questions for "example.com." with `cdnReply`
and cannot be reached for any other name. -/
def cdnUpstream : Upstream := fun _ q s =>
  if q.Name = "example.com." then .ok cdnReply else .error ⟨"unreachable " ++ s⟩

/-- A standard query with the given questions. -/
def queryOf (qs : List Question) : Msg :=
  { Id := 7, Response := false, Opcode := OpcodeQuery, Compress := false,
    Question := qs, Answer := none }

/-- An update message for the zone "example.com.". -/
def updateMsg : Msg :=
  { Id := 9, Response := false, Opcode := OpcodeUpdate, Compress := false,
    Question := [⟨"example.com.", 6⟩], Answer := none }

/-- The configuration of the unreachable-forwarder scenario: the single
forwarder 1.2.3.4, port 53, udp, and no filter. -/
def unreachableConfig : DNSConfig :=
  { Host := "localhost", Port := 1234,
    Forwarders := [⟨"1.2.3.4", 53, "udp"⟩],
    Filters := [],
    Logfile := "" }

/-- The forwarders of `failoverConfig` with other protocol fields. -/
def failoverConfigTcp : DNSConfig :=
  { failoverConfig with
    Forwarders := [⟨"10.0.0.1", 53, "tcp"⟩, ⟨"10.0.0.2", 53, "tcp"⟩, ⟨"10.0.0.3", 5353, "udp"⟩] }

/-- Surroundings in which the file "config.json" decodes to the given map, the
working directory is "/srv/dns" and the log file can be opened. The conversion
to int64 truncates toward zero and, as on amd64, gives the least int64 for a
value outside the range of int64. -/
def envOf (configMap : List (String × JSON)) : ConfigEnv :=
  { load := fun p => if p = "config.json" then .ok configMap else .error "no such file",
    int64 := fun x =>
      if -9223372036854775808 ≤ x.num.tdiv x.den ∧ x.num.tdiv x.den ≤ 9223372036854775807 then
        x.num.tdiv x.den
      else -9223372036854775808,
    getwd := .ok "/srv/dns",
    pathJoin := fun a b => a ++ "/" ++ b,
    pathDir := fun _ => "/srv/dns",
    stat := fun _ => some true,
    openFile := fun _ => true }

/-- The decoded form of a configuration whose only forwarder entry has a host
too short to be kept and the protocol "http". -/
def shortHostDoc : List (String × JSON) :=
  [("forwarders", .array [.object [("host", .string "1.1.1"), ("protocol", .string "http")]])]

/-- The decoded form of a configuration with two forwarders, one of them with
a port and a protocol, and with four filter entries: type "ALL", type "A" with
exact matching, a host of three bytes, and no host. -/
def sampleDoc : List (String × JSON) :=
  [("host", .string "127.0.0.1"),
   ("forwarders", .array [
      .object [("host", .string "9.9.9.9"), ("port", .number 5353), ("protocol", .string "tcp")],
      .object [("host", .string "1.1.1.1")]]),
   ("filters", .array [
      .object [("host", .string "ads.example.com"), ("type", .string "ALL"),
               ("matching", .string "exact")],
      .object [("host", .string "tracker.example.net"), ("type", .string "A"),
               ("matching", .string "exact")],
      .object [("host", .string "a.b"), ("type", .string "A")],
      .object [("type", .string "MX"), ("matching", .string "contains")]]),
   ("logfile", .string "/var/log/dns-filter.log")]

/-- The decoded form of a configuration whose forwarder entries have no host
that can be kept: one host is too short, the other entry has none. -/
def noEndpointDoc : List (String × JSON) :=
  [("forwarders", .array [.object [("host", .string "dns")], .object [("port", .number 53)]])]

/-- The decoded form of a configuration whose second forwarder has a host that
is kept and the protocol "http". -/
def badProtocolDoc : List (String × JSON) :=
  [("forwarders", .array [
      .object [("host", .string "8.8.8.8")],
      .object [("host", .string "9.9.9.9"), ("protocol", .string "http")]])]

/-- The decoded form of a configuration whose filter has the type "A" and no
matching mode. -/
def missingMatchingDoc : List (String × JSON) :=
  [("filters", .array [.object [("host", .string "ads.example.com"), ("type", .string "A")]])]

/-- The decoded form of a configuration whose filter has a type that config.go
does not know, "SRV", and exact matching. -/
def unknownTypeDoc : List (String × JSON) :=
  [("filters", .array [.object [("host", .string "ads.example.com"), ("type", .string "SRV"),
                                ("matching", .string "exact")]])]

/-- The decoded form of the configuration of the wildcard scenario: the
forwarder 8.8.8.8 and the filter with host "ads.example.com" and type "ALL";
parseConfigFile turns it into `adsConfig`. -/
def adsDoc : List (String × JSON) :=
  [("forwarders", .array [.object [("host", .string "8.8.8.8")]]),
   ("filters", .array [.object [("host", .string "ads.example.com"), ("type", .string "ALL")]])]

/-! ## Facts about strings.Contains -/

theorem startsWith_iff (s sub : List Char) : startsWith s sub = true ↔ sub <+: s := by
  induction s generalizing sub with
  | nil =>
    cases sub with
    | nil => simp [startsWith]
    | cons d ds => simp [startsWith]
  | cons c cs ih =>
    cases sub with
    | nil => simp [startsWith]
    | cons d ds =>
      by_cases h : c = d
      · subst h
        simp [startsWith, ih, List.cons_prefix_cons]
      · have h2 : ¬ d = c := fun e => h e.symm
        simp [startsWith, h, h2, List.cons_prefix_cons]

theorem containsChars_iff (s sub : List Char) : containsChars s sub = true ↔ sub <:+: s := by
  induction s with
  | nil =>
    rw [containsChars, startsWith_iff, List.prefix_nil, List.infix_nil]
  | cons c cs ih =>
    rw [containsChars, List.infix_cons_iff, ← ih, ← startsWith_iff]
    by_cases h : startsWith (c :: cs) sub = true <;> simp [h]

theorem stringsContains_iff (s sub : String) :
    stringsContains s sub = true ↔ ∃ a b : String, s = a ++ sub ++ b := by
  unfold stringsContains
  rw [containsChars_iff]
  constructor
  · rintro ⟨l1, l2, h⟩
    refine ⟨⟨l1⟩, ⟨l2⟩, ?_⟩
    apply String.ext
    simp [String.data_append, h]
  · rintro ⟨a, b, h⟩
    refine ⟨a.data, b.data, ?_⟩
    rw [h]
    simp [String.data_append]

/-! ## Facts about the filter loop -/

theorem filterLoop_false_iff (host : String) (t : Nat) (filters : List DNSFilter) :
    filterLoop host t filters = false ↔
      ∃ rule ∈ filters, rule.QueryType = t ∧
        ((rule.ExactMatching = false ∧ stringsContains host rule.Host = true) ∨
         (rule.ExactMatching = true ∧ rule.Host ++ "." = host)) := by
  induction filters with
  | nil => simp [filterLoop]
  | cons f rest ih =>
    rw [filterLoop]
    cases hm : f.ExactMatching with
    | false =>
      by_cases hc : stringsContains host f.Host = true ∧ f.QueryType = t
      · simp only [Bool.not_false, if_true, hc, and_self]
        simp only [true_iff]
        exact ⟨f, List.mem_cons_self _ _, hc.2, Or.inl ⟨hm, hc.1⟩⟩
      · simp only [Bool.not_false, if_true, hc, if_false, ih]
        constructor
        · rintro ⟨r, hr, h⟩
          exact ⟨r, List.mem_cons_of_mem _ hr, h⟩
        · rintro ⟨r, hr, ht, h⟩
          rcases List.mem_cons.1 hr with rfl | hr
          · rcases h with ⟨_, h⟩ | ⟨h, _⟩
            · exact absurd ⟨h, ht⟩ hc
            · rw [hm] at h; cases h
          · exact ⟨r, hr, ht, h⟩
    | true =>
      by_cases hc : f.Host ++ "." = host ∧ f.QueryType = t
      · simp only [Bool.not_true, hc, and_self, if_true]
        simp only [Bool.false_eq_true, if_false, true_iff]
        exact ⟨f, List.mem_cons_self _ _, hc.2, Or.inr ⟨hm, hc.1⟩⟩
      · simp only [Bool.not_true, Bool.false_eq_true, if_false, hc, ih]
        constructor
        · rintro ⟨r, hr, h⟩
          exact ⟨r, List.mem_cons_of_mem _ hr, h⟩
        · rintro ⟨r, hr, ht, h⟩
          rcases List.mem_cons.1 hr with rfl | hr
          · rcases h with ⟨h, _⟩ | ⟨_, h⟩
            · rw [hm] at h; cases h
            · exact absurd ⟨h, ht⟩ hc
          · exact ⟨r, hr, ht, h⟩

/-! ## Facts about the forwarder loop -/

theorem forwardLoop_written (up : Upstream) (q : Question) (servers : List DNSForwardingServer)
    (st : Lookup) (w : World) : (forwardLoop up q servers st w).2.written = w.written := by
  induction servers generalizing st w with
  | nil => rfl
  | cons s rest ih =>
    rw [forwardLoop]
    split
    · rfl
    · rw [ih]

theorem forwardLoop_exchanges_ext (up : Upstream) (q : Question)
    (servers : List DNSForwardingServer) (st : Lookup) (w : World) :
    ∃ tail, (forwardLoop up q servers st w).2.exchanges = w.exchanges ++ tail := by
  induction servers generalizing st w with
  | nil => exact ⟨[], by simp [forwardLoop]⟩
  | cons s rest ih =>
    rw [forwardLoop]
    split
    · exact ⟨[⟨q, serverString s⟩], rfl⟩
    · obtain ⟨tail, h⟩ := ih { st with dnsServerErr := some (.exchange _) }
        { w with
          exchanges := w.exchanges ++ [⟨q, serverString s⟩]
          logs := w.logs ++ [.communicating (serverString s) _] }
      refine ⟨⟨q, serverString s⟩ :: tail, ?_⟩
      rw [h]
      simp

theorem forwardLoop_first (up : Upstream) (q : Question) (s : DNSForwardingServer)
    (rest : List DNSForwardingServer) (st : Lookup) (w : World) :
    ∃ tail, (forwardLoop up q (s :: rest) st w).2.exchanges
      = w.exchanges ++ ⟨q, serverString s⟩ :: tail := by
  rw [forwardLoop]
  split
  · exact ⟨[], rfl⟩
  · obtain ⟨tail, h⟩ := forwardLoop_exchanges_ext up q rest
        { st with dnsServerErr := some (.exchange _) }
        { w with
          exchanges := w.exchanges ++ [⟨q, serverString s⟩]
          logs := w.logs ++ [.communicating (serverString s) _] }
    refine ⟨tail, ?_⟩
    rw [h]
    simp

theorem forwardLoop_success (up : Upstream) (q : Question) :
    ∀ (servers : List DNSForwardingServer) (k : Nat) (server : DNSForwardingServer)
      (reply : Msg) (st : Lookup) (w : World),
      servers[k]? = some server →
      (∀ i s, i < k → servers[i]? = some s →
        ∃ e, up (w.exchanges.length + i) q (serverString s) = .error e) →
      up (w.exchanges.length + k) q (serverString server) = .ok reply →
      (forwardLoop up q servers st w).1 = { results := reply.Answer, dnsServerErr := none } ∧
      (forwardLoop up q servers st w).2.exchanges
        = w.exchanges ++ (servers.take (k + 1)).map (fun s => ⟨q, serverString s⟩) := by
  intro servers
  induction servers with
  | nil => intro k server reply st w hk; simp at hk
  | cons s rest ih =>
    intro k server reply st w hk hfail hok
    cases k with
    | zero =>
      simp only [List.getElem?_cons_zero, Option.some.injEq] at hk
      subst hk
      rw [forwardLoop]
      simp only [Nat.add_zero] at hok
      rw [hok]
      simp
    | succ k =>
      simp only [List.getElem?_cons_succ] at hk
      obtain ⟨e, he⟩ := hfail 0 s (Nat.succ_pos k) (by simp)
      simp only [Nat.add_zero] at he
      rw [forwardLoop, he]
      simp only
      have := ih k server reply { st with dnsServerErr := some (.exchange e) }
        { w with
          exchanges := w.exchanges ++ [⟨q, serverString s⟩]
          logs := w.logs ++ [.communicating (serverString s) e] } hk
        (by
          intro i s2 hi hs2
          have := hfail (i + 1) s2 (Nat.succ_lt_succ hi) (by simpa using hs2)
          simpa [Nat.add_assoc, Nat.add_comm 1 i] using this)
        (by simpa [Nat.add_assoc, Nat.add_comm 1 k] using hok)
      refine ⟨this.1, ?_⟩
      rw [this.2]
      simp

theorem forwardLoop_all_fail (up : Upstream) (q : Question) :
    ∀ (servers : List DNSForwardingServer) (st : Lookup) (w : World),
      (∀ i s, servers[i]? = some s →
        ∃ e, up (w.exchanges.length + i) q (serverString s) = .error e) →
      (forwardLoop up q servers st w).1.results = st.results ∧
      (forwardLoop up q servers st w).2.exchanges
        = w.exchanges ++ servers.map (fun s => ⟨q, serverString s⟩) ∧
      (servers = [] → (forwardLoop up q servers st w).1.dnsServerErr = st.dnsServerErr) ∧
      (∀ h : servers ≠ [], ∃ e,
        up (w.exchanges.length + (servers.length - 1)) q (serverString (servers.getLast h))
          = .error e ∧
        (forwardLoop up q servers st w).1.dnsServerErr = some (.exchange e)) := by
  intro servers
  induction servers with
  | nil => intro st w _; simp [forwardLoop]
  | cons s rest ih =>
    intro st w hfail
    obtain ⟨e, he⟩ := hfail 0 s (by simp)
    simp only [Nat.add_zero] at he
    have hrec := ih { st with dnsServerErr := some (.exchange e) }
        { w with
          exchanges := w.exchanges ++ [⟨q, serverString s⟩]
          logs := w.logs ++ [.communicating (serverString s) e] }
        (by
          intro i s2 hs2
          have := hfail (i + 1) s2 (by simpa using hs2)
          simpa [Nat.add_assoc, Nat.add_comm 1 i] using this)
    rw [forwardLoop, he]
    simp only
    refine ⟨hrec.1, ?_, by simp, ?_⟩
    · rw [hrec.2.1]; simp
    · intro _
      by_cases hr : rest = []
      · subst hr
        refine ⟨e, by simpa using he, ?_⟩
        simp [forwardLoop]
      · obtain ⟨e2, he2, herr⟩ := hrec.2.2.2 hr
        refine ⟨e2, ?_, herr⟩
        simp only [List.length_append, List.length_cons, List.length_nil] at he2
        rw [List.getLast_cons hr, ← he2]
        have hpos : 0 < rest.length := List.length_pos.2 hr
        congr 1
        simp only [List.length_cons]
        omega

/-! ## Filter decisions and the forwarder pool (performLookup) -/

/-- C1: evaluation of the code on the scenario of the claim. With the single
rule host "ads.example.com", type ANY, non-exact, performLookup does not block
the type A and type AAAA questions for "ads.example.com." nor the type A
question for "sub.ads.example.com.": each is sent to the forwarder and its
records are returned. Only a question of type ANY itself is blocked. -/
theorem wildcard_rule_forwards_typed_questions :
    performLookup adsConfig answeringUpstream "ads.example.com." TypeA emptyWorld
      = ({ results := some [⟨"ads.example.com.", TypeA, "192.0.2.1"⟩], dnsServerErr := none },
         { exchanges := [⟨⟨"ads.example.com.", TypeA⟩, "8.8.8.8:53"⟩], logs := [], written := [] }) ∧
    performLookup adsConfig answeringUpstream "ads.example.com." TypeAAAA emptyWorld
      = ({ results := some [⟨"ads.example.com.", TypeAAAA, "192.0.2.1"⟩], dnsServerErr := none },
         { exchanges := [⟨⟨"ads.example.com.", TypeAAAA⟩, "8.8.8.8:53"⟩], logs := [], written := [] }) ∧
    performLookup adsConfig answeringUpstream "sub.ads.example.com." TypeA emptyWorld
      = ({ results := some [⟨"sub.ads.example.com.", TypeA, "192.0.2.1"⟩], dnsServerErr := none },
         { exchanges := [⟨⟨"sub.ads.example.com.", TypeA⟩, "8.8.8.8:53"⟩], logs := [], written := [] }) ∧
    performLookup adsConfig answeringUpstream "ads.example.com." TypeANY emptyWorld
      = ({ results := some [], dnsServerErr := none }, emptyWorld) := by
  decide

/-- C2: on an unblocked question, if the exchanges with the forwarders before
position k fail and the exchange with the forwarder at position k (counted
from 0) returns a reply without error, then performLookup performs exactly the
exchanges with the forwarders at positions 0..k, in configured order, and
returns the `Answer` of that reply, nil or not, with a nil error. -/
theorem resolve_returns_first_success (config : DNSConfig) (up : Upstream) (host : String)
    (resultType : Nat) (w : World) (k : Nat) (server : DNSForwardingServer) (reply : Msg)
    (hallow : filterLoop host resultType config.Filters = true)
    (hk : config.Forwarders[k]? = some server)
    (hfail : ∀ i s, i < k → config.Forwarders[i]? = some s →
      ∃ e, up (w.exchanges.length + i) ⟨host, resultType⟩ (serverString s) = .error e)
    (hok : up (w.exchanges.length + k) ⟨host, resultType⟩ (serverString server) = .ok reply) :
    (performLookup config up host resultType w).1
      = { results := reply.Answer, dnsServerErr := none } ∧
    (performLookup config up host resultType w).2.exchanges
      = w.exchanges ++ (config.Forwarders.take (k + 1)).map
          (fun s => ⟨⟨host, resultType⟩, serverString s⟩) := by
  simp only [performLookup, hallow, if_true]
  exact forwardLoop_success up ⟨host, resultType⟩ config.Forwarders k server reply _ w hk hfail hok

/-- Witness of C2: three forwarders, the first times out and the second replies
with no answer record; the third is never contacted. -/
theorem resolve_returns_first_success_witness :
    (performLookup failoverConfig failoverUpstream "example.com." TypeA emptyWorld).1
      = { results := none, dnsServerErr := none } ∧
    (performLookup failoverConfig failoverUpstream "example.com." TypeA emptyWorld).2.exchanges
      = [⟨⟨"example.com.", TypeA⟩, "10.0.0.1:53"⟩, ⟨⟨"example.com.", TypeA⟩, "10.0.0.2:53"⟩] :=
  resolve_returns_first_success failoverConfig failoverUpstream "example.com." TypeA emptyWorld
    1 ⟨"10.0.0.2", 53, "udp"⟩ emptyReply (by decide) (by decide)
    (by
      intro i s hi hs
      have h0 : i = 0 := by omega
      subst h0
      have hs0 : s = ⟨"10.0.0.1", 53, "udp"⟩ := by
        simpa [failoverConfig] using hs.symm
      subst hs0
      exact ⟨⟨"i/o timeout"⟩, rfl⟩)
    rfl

/-- C3: on an unblocked question with a non-empty forwarder list all of whose
exchanges fail, performLookup contacts every forwarder once, in configured
order, and returns an allocated list of length zero together with the error of
the exchange with the last forwarder. -/
theorem resolve_all_fail_returns_last_error (config : DNSConfig) (up : Upstream)
    (host : String) (resultType : Nat) (w : World)
    (hallow : filterLoop host resultType config.Filters = true)
    (hne : config.Forwarders ≠ [])
    (hfail : ∀ i s, config.Forwarders[i]? = some s →
      ∃ e, up (w.exchanges.length + i) ⟨host, resultType⟩ (serverString s) = .error e) :
    (performLookup config up host resultType w).2.exchanges
      = w.exchanges ++ config.Forwarders.map (fun s => ⟨⟨host, resultType⟩, serverString s⟩) ∧
    (performLookup config up host resultType w).1.results = some [] ∧
    ∃ e, up (w.exchanges.length + (config.Forwarders.length - 1)) ⟨host, resultType⟩
          (serverString (config.Forwarders.getLast hne)) = .error e ∧
      (performLookup config up host resultType w).1.dnsServerErr = some (.exchange e) := by
  simp only [performLookup, hallow, if_true]
  have h := forwardLoop_all_fail up ⟨host, resultType⟩ config.Forwarders
    { results := some [], dnsServerErr := none } w hfail
  exact ⟨h.2.1, h.1, h.2.2.2 hne⟩

/-- Witness of C3: the three forwarders of `failoverConfig`, none reachable. -/
theorem resolve_all_fail_returns_last_error_witness :
    (performLookup failoverConfig unreachableUpstream "example.com." TypeA emptyWorld).2.exchanges
      = [⟨⟨"example.com.", TypeA⟩, "10.0.0.1:53"⟩, ⟨⟨"example.com.", TypeA⟩, "10.0.0.2:53"⟩,
         ⟨⟨"example.com.", TypeA⟩, "10.0.0.3:5353"⟩] ∧
    (performLookup failoverConfig unreachableUpstream "example.com." TypeA emptyWorld).1.results
      = some [] ∧
    ∃ e, unreachableUpstream 2 ⟨"example.com.", TypeA⟩ "10.0.0.3:5353" = .error e ∧
      (performLookup failoverConfig unreachableUpstream "example.com." TypeA emptyWorld).1.dnsServerErr
        = some (.exchange e) :=
  resolve_all_fail_returns_last_error failoverConfig unreachableUpstream "example.com." TypeA
    emptyWorld (by decide) (by decide) (fun _ s _ => ⟨⟨"unreachable " ++ serverString s⟩, rfl⟩)

/-- C4: for a rule with ExactMatching = false and a question of the type of the
rule: when the queried name contains the host of the rule, every filter list
holding the rule blocks the lookup (empty results, nil error, no effect at
all); when the name does not contain it and the rule is the only filter, the
lookup is not blocked and the first forwarder, if there is one, is contacted. -/
theorem contains_rule_blocks_substring_names (config : DNSConfig) (up : Upstream)
    (host : String) (w : World) (rule : DNSFilter)
    (hmode : rule.ExactMatching = false) :
    (rule ∈ config.Filters → (∃ a b : String, host = a ++ rule.Host ++ b) →
      performLookup config up host rule.QueryType w
        = ({ results := some [], dnsServerErr := none }, w)) ∧
    (config.Filters = [rule] → (¬ ∃ a b : String, host = a ++ rule.Host ++ b) →
      filterLoop host rule.QueryType config.Filters = true ∧
      ∀ s rest, config.Forwarders = s :: rest →
        ∃ tail, (performLookup config up host rule.QueryType w).2.exchanges
          = w.exchanges ++ ⟨⟨host, rule.QueryType⟩, serverString s⟩ :: tail) := by
  constructor
  · intro hmem hsub
    have hblock : filterLoop host rule.QueryType config.Filters = false :=
      (filterLoop_false_iff _ _ _).2
        ⟨rule, hmem, rfl, Or.inl ⟨hmode, (stringsContains_iff _ _).2 hsub⟩⟩
    simp [performLookup, hblock]
  · intro hlist hnot
    have hallow : filterLoop host rule.QueryType config.Filters = true := by
      cases hf : filterLoop host rule.QueryType config.Filters with
      | true => rfl
      | false =>
        obtain ⟨r, hr, _, h⟩ := (filterLoop_false_iff _ _ _).1 hf
        rw [hlist, List.mem_singleton] at hr
        subst hr
        rcases h with ⟨_, h⟩ | ⟨h, _⟩
        · exact absurd ((stringsContains_iff _ _).1 h) hnot
        · rw [hmode] at h; cases h
    refine ⟨hallow, ?_⟩
    intro s rest hfw
    simp only [performLookup, hallow, if_true, hfw]
    exact forwardLoop_first up _ s rest _ w

/-- Witness of C4: the rule "ads.example.com" of type A blocks the type A
question for "sub.ads.example.com." and lets the one for "example.com." go to
the forwarder. -/
theorem contains_rule_blocks_substring_names_witness :
    performLookup { adsConfig with Filters := [⟨"ads.example.com", TypeA, false⟩] }
        answeringUpstream "sub.ads.example.com." TypeA emptyWorld
      = ({ results := some [], dnsServerErr := none }, emptyWorld) ∧
    ∃ tail, (performLookup { adsConfig with Filters := [⟨"ads.example.com", TypeA, false⟩] }
        answeringUpstream "example.com." TypeA emptyWorld).2.exchanges
      = ⟨⟨"example.com.", TypeA⟩, "8.8.8.8:53"⟩ :: tail :=
  ⟨(contains_rule_blocks_substring_names
      { adsConfig with Filters := [⟨"ads.example.com", TypeA, false⟩] } answeringUpstream
      "sub.ads.example.com." emptyWorld ⟨"ads.example.com", TypeA, false⟩ rfl).1
      (by decide) ⟨"sub.", ".", by decide⟩,
   ((contains_rule_blocks_substring_names
      { adsConfig with Filters := [⟨"ads.example.com", TypeA, false⟩] } answeringUpstream
      "example.com." emptyWorld ⟨"ads.example.com", TypeA, false⟩ rfl).2 rfl
      (fun h => by
        have hc := (stringsContains_iff "example.com." "ads.example.com").2 h
        revert hc
        decide)).2 ⟨"8.8.8.8", 53, "udp"⟩ [] rfl⟩

/-- C5: for a rule with ExactMatching = true that is the only filter, and a
question of the type of the rule, the lookup is blocked exactly when the
queried name equals the host of the rule followed by "."; every other name,
longer or shorter, is not blocked and goes to the first forwarder. -/
theorem exact_rule_blocks_only_equal_name (config : DNSConfig) (up : Upstream)
    (host : String) (w : World) (rule : DNSFilter)
    (hmode : rule.ExactMatching = true) (hlist : config.Filters = [rule]) :
    (filterLoop host rule.QueryType config.Filters = false ↔ host = rule.Host ++ ".") ∧
    (host = rule.Host ++ "." →
      performLookup config up host rule.QueryType w
        = ({ results := some [], dnsServerErr := none }, w)) ∧
    (host ≠ rule.Host ++ "." →
      ∀ s rest, config.Forwarders = s :: rest →
        ∃ tail, (performLookup config up host rule.QueryType w).2.exchanges
          = w.exchanges ++ ⟨⟨host, rule.QueryType⟩, serverString s⟩ :: tail) := by
  have hiff : filterLoop host rule.QueryType config.Filters = false ↔ host = rule.Host ++ "." := by
    rw [filterLoop_false_iff, hlist]
    constructor
    · rintro ⟨r, hr, _, h⟩
      rw [List.mem_singleton] at hr
      subst hr
      rcases h with ⟨h, _⟩ | ⟨_, h⟩
      · rw [hmode] at h; cases h
      · exact h.symm
    · intro h
      exact ⟨rule, List.mem_singleton.2 rfl, rfl, Or.inr ⟨hmode, h.symm⟩⟩
  refine ⟨hiff, ?_, ?_⟩
  · intro h
    have hblock := hiff.2 h
    simp [performLookup, hblock]
  · intro h s rest hfw
    have hallow : filterLoop host rule.QueryType config.Filters = true := by
      cases hf : filterLoop host rule.QueryType config.Filters with
      | true => rfl
      | false => exact absurd (hiff.1 hf) h
    simp only [performLookup, hallow, if_true, hfw]
    exact forwardLoop_first up _ s rest _ w

/-- Witness of C5: the exact rule "ads.example.com" of type A blocks the type A
question for "ads.example.com." and not the one for "sub.ads.example.com.". -/
theorem exact_rule_blocks_only_equal_name_witness :
    performLookup { adsConfig with Filters := [⟨"ads.example.com", TypeA, true⟩] }
        answeringUpstream "ads.example.com." TypeA emptyWorld
      = ({ results := some [], dnsServerErr := none }, emptyWorld) ∧
    ∃ tail, (performLookup { adsConfig with Filters := [⟨"ads.example.com", TypeA, true⟩] }
        answeringUpstream "sub.ads.example.com." TypeA emptyWorld).2.exchanges
      = ⟨⟨"sub.ads.example.com.", TypeA⟩, "8.8.8.8:53"⟩ :: tail :=
  ⟨(exact_rule_blocks_only_equal_name
      { adsConfig with Filters := [⟨"ads.example.com", TypeA, true⟩] } answeringUpstream
      "ads.example.com." emptyWorld ⟨"ads.example.com", TypeA, true⟩ rfl rfl).2.1 (by decide),
   (exact_rule_blocks_only_equal_name
      { adsConfig with Filters := [⟨"ads.example.com", TypeA, true⟩] } answeringUpstream
      "sub.ads.example.com." emptyWorld ⟨"ads.example.com", TypeA, true⟩ rfl rfl).2.2
      (by decide) ⟨"8.8.8.8", 53, "udp"⟩ [] rfl⟩

/-! ## Facts about the question loop -/

theorem appendMatching_eq (qName : String) (results answers : List RR) :
    appendMatching qName results answers
      = answers ++ results.filter (fun r => decide (r.Name = qName)) := by
  induction results generalizing answers with
  | nil => simp [appendMatching]
  | cons r rest ih =>
    rw [appendMatching]
    by_cases h : r.Name = qName
    · simp [h, ih]
    · simp [h, ih]

theorem performLookup_blocked (config : DNSConfig) (up : Upstream) (host : String)
    (resultType : Nat) (w : World)
    (h : filterLoop host resultType config.Filters = false) :
    performLookup config up host resultType w
      = ({ results := some [], dnsServerErr := none }, w) := by
  simp [performLookup, h]

theorem performLookup_allowed (config : DNSConfig) (up : Upstream) (q : Question) (w : World)
    (h : filterLoop q.Name q.Qtype config.Filters = true) :
    performLookup config up q.Name q.Qtype w
      = forwardLoop up q config.Forwarders { results := some [], dnsServerErr := none } w := by
  simp only [performLookup, h, if_true]

theorem questionLoop_resolved (config : DNSConfig) (up : Upstream) {w w2 : World}
    {qs : List Question} {rs : List (List RR)} (h : Resolved config up w qs rs w2) :
    ∀ (rest : List Question) (answers : List RR),
      questionLoop config up (qs ++ rest) answers w
        = questionLoop config up rest
            (answers ++ (List.zipWith (fun q recs => recs.filter (fun r => decide (r.Name = q.Name))) qs rs).flatten) w2 := by
  induction h with
  | done w => intro rest answers; simp
  | blocked hb _ ih =>
    intro rest answers
    rw [List.cons_append, questionLoop]
    simp only [performLookup_blocked config up _ _ _ hb]
    rw [ih]
    simp [appendMatching]
  | @answered w0 _ q _ _ k server reply recs hallow hk hfail hok hans _ ih =>
    intro rest answers
    have hl := performLookup_allowed config up q w0 hallow
    have hs := (forwardLoop_success up q config.Forwarders k server reply
      { results := some [], dnsServerErr := none } w0 hk hfail hok).1
    rw [← hl] at hs
    rw [List.cons_append, questionLoop]
    simp only [hs, hans]
    rw [ih, appendMatching_eq]
    simp [List.append_assoc]

/-! ## The query pipeline (processLookupQuery) and the request handler -/

/-- Fact on rules of the type of the question: when the single question of a
query is matched by a rule of the filter list that has the type of the question
(the name contains the host for a non-exact rule or equals the host followed by
"." for an exact rule), processLookupQuery returns a nil error, sets the
answers to an allocated list of length zero and leaves the world untouched: no
exchange with any forwarder, for every forwarder list and every upstream. -/
theorem blocked_question_contacts_no_forwarder (config : DNSConfig) (up : Upstream)
    (req : Msg) (w : World) (q : Question) (rule : DNSFilter)
    (hq : req.Question = [q])
    (hmem : rule ∈ config.Filters)
    (htype : rule.QueryType = q.Qtype)
    (hmatch : (rule.ExactMatching = false ∧ ∃ a b : String, q.Name = a ++ rule.Host ++ b) ∨
              (rule.ExactMatching = true ∧ q.Name = rule.Host ++ ".")) :
    processLookupQuery config up req w
      = { req := { req with Answer := some [] }, err := none, world := w } := by
  have hblock : filterLoop q.Name q.Qtype config.Filters = false := by
    refine (filterLoop_false_iff _ _ _).2 ⟨rule, hmem, htype, ?_⟩
    rcases hmatch with ⟨hm, hs⟩ | ⟨hm, he⟩
    · exact Or.inl ⟨hm, (stringsContains_iff _ _).2 hs⟩
    · exact Or.inr ⟨hm, he.symm⟩
  simp [processLookupQuery, hq, questionLoop, performLookup_blocked config up _ _ _ hblock,
    appendMatching]

/-- Instance of the fact above: the question for "sub.ads.example.com." of type
A under the rule "ads.example.com" of type A. -/
theorem blocked_question_contacts_no_forwarder_witness :
    processLookupQuery homeConfig cdnUpstream (queryOf [⟨"sub.ads.example.com.", TypeA⟩]) emptyWorld
      = { req := { queryOf [⟨"sub.ads.example.com.", TypeA⟩] with Answer := some [] },
          err := none, world := emptyWorld } :=
  blocked_question_contacts_no_forwarder homeConfig cdnUpstream
    (queryOf [⟨"sub.ads.example.com.", TypeA⟩]) emptyWorld ⟨"sub.ads.example.com.", TypeA⟩
    ⟨"ads.example.com", TypeA, false⟩ rfl (by decide) rfl
    (Or.inl ⟨rfl, "sub.", ".", by decide⟩)

/-- C6: evaluation of the code on a query whose single question matches a rule
of type "ALL". parseConfigFile turns the filter with host "ads.example.com" and
type "ALL" into the rule of `adsConfig`, of type ANY; for the query with the
single question "ads.example.com." of type A, processLookupQuery does not
block: it makes one exchange with the forwarder 8.8.8.8:53 and attaches the
record of the reply to the message. -/
theorem wildcard_rule_question_reaches_forwarder :
    parseConfigFile (envOf adsDoc) "config.json" = .ok adsConfig ∧
    processLookupQuery adsConfig answeringUpstream (queryOf [⟨"ads.example.com.", TypeA⟩])
        emptyWorld
      = { req := { queryOf [⟨"ads.example.com.", TypeA⟩] with
                   Answer := some [⟨"ads.example.com.", TypeA, "192.0.2.1"⟩] },
          err := none,
          world := { exchanges := [⟨⟨"ads.example.com.", TypeA⟩, "8.8.8.8:53"⟩],
                     logs := [], written := [] } } := by
  decide

/-- C7: when every question of a query is either blocked or answered without
error with a present answer list, processLookupQuery returns a nil error and
sets the answers to the concatenation, in question order, of: nothing for a
blocked question, and for an answered question the records of the reply whose
own name equals the name of the question, in their order. -/
theorem answers_are_the_name_equal_records (config : DNSConfig) (up : Upstream)
    (req : Msg) (w w2 : World) (rs : List (List RR))
    (h : Resolved config up w req.Question rs w2) :
    processLookupQuery config up req w
      = { req := { req with
                   Answer := some (List.zipWith
                     (fun q recs => recs.filter (fun r => decide (r.Name = q.Name)))
                     req.Question rs).flatten },
          err := none, world := w2 } := by
  have hloop := questionLoop_resolved config up h [] []
  simp only [List.append_nil, List.nil_append] at hloop
  simp only [processLookupQuery, hloop, questionLoop]

/-- Witness of C7: a blocked question followed by the question for
"example.com.", whose reply carries a record named "example.com." and one
named "cdn.example.net."; only the first is in the answers. -/
theorem answers_are_the_name_equal_records_witness :
    processLookupQuery homeConfig cdnUpstream
        (queryOf [⟨"ads.example.com.", TypeA⟩, ⟨"example.com.", TypeA⟩]) emptyWorld
      = { req := { queryOf [⟨"ads.example.com.", TypeA⟩, ⟨"example.com.", TypeA⟩] with
                   Answer := some [⟨"example.com.", TypeCNAME, "cdn.example.net."⟩] },
          err := none,
          world := { exchanges := [⟨⟨"example.com.", TypeA⟩, "8.8.8.8:53"⟩],
                     logs := [], written := [] } } :=
  answers_are_the_name_equal_records homeConfig cdnUpstream
    (queryOf [⟨"ads.example.com.", TypeA⟩, ⟨"example.com.", TypeA⟩]) emptyWorld
    { exchanges := [⟨⟨"example.com.", TypeA⟩, "8.8.8.8:53"⟩], logs := [], written := [] }
    [[], [⟨"example.com.", TypeCNAME, "cdn.example.net."⟩, ⟨"cdn.example.net.", TypeA, "192.0.2.7"⟩]]
    (.blocked (by decide)
      (.answered 0 ⟨"8.8.8.8", 53, "udp"⟩ cdnReply _ (by decide) (by decide)
        (fun i _ hi _ => absurd hi (Nat.not_lt_zero i)) rfl rfl (.done _)))

/-- C8: when the questions before question q are all blocked or answered and
every forwarder fails for the unblocked question q, processLookupQuery returns
the error of the exchange with the last forwarder for q, leaves the message
as it was (no answer of the earlier questions is attached), and performs no
exchange after the ones for q. -/
theorem first_failing_question_aborts_query (config : DNSConfig) (up : Upstream)
    (req : Msg) (w w1 : World) (pre post : List Question) (q : Question)
    (rs : List (List RR))
    (hq : req.Question = pre ++ q :: post)
    (hpre : Resolved config up w pre rs w1)
    (hallow : filterLoop q.Name q.Qtype config.Filters = true)
    (hne : config.Forwarders ≠ [])
    (hfail : ∀ i s, config.Forwarders[i]? = some s →
      ∃ e, up (w1.exchanges.length + i) q (serverString s) = .error e) :
    (processLookupQuery config up req w).req = req ∧
    (processLookupQuery config up req w).world.exchanges
      = w1.exchanges ++ config.Forwarders.map (fun s => ⟨q, serverString s⟩) ∧
    ∃ e, up (w1.exchanges.length + (config.Forwarders.length - 1)) q
          (serverString (config.Forwarders.getLast hne)) = .error e ∧
      (processLookupQuery config up req w).err = some (.exchange e) := by
  have hloop := questionLoop_resolved config up hpre (q :: post) []
  have hl := performLookup_allowed config up q w1 hallow
  have hf := forwardLoop_all_fail up q config.Forwarders
    { results := some [], dnsServerErr := none } w1 hfail
  obtain ⟨e, he, herr⟩ := hf.2.2.2 hne
  rw [← hl] at hf herr
  have hstep : questionLoop config up (q :: post)
      ([] ++ (List.zipWith
        (fun q recs => recs.filter (fun r => decide (r.Name = q.Name))) pre rs).flatten) w1
      = (.error (.exchange e), (performLookup config up q.Name q.Qtype w1).2) := by
    rw [questionLoop]
    simp only [herr]
  rw [hstep] at hloop
  refine ⟨?_, ?_, e, he, ?_⟩
  · simp only [processLookupQuery, hq, hloop]
  · simp only [processLookupQuery, hq, hloop]
    exact hf.2.1
  · simp only [processLookupQuery, hq, hloop]

/-- Witness of C8: three questions; the first is answered, the second finds the
forwarder unreachable, the third is never sent. -/
theorem first_failing_question_aborts_query_witness :
    (processLookupQuery homeConfig cdnUpstream
        (queryOf [⟨"example.com.", TypeA⟩, ⟨"other.org.", TypeA⟩, ⟨"example.com.", TypeAAAA⟩])
        emptyWorld).req
      = queryOf [⟨"example.com.", TypeA⟩, ⟨"other.org.", TypeA⟩, ⟨"example.com.", TypeAAAA⟩] ∧
    (processLookupQuery homeConfig cdnUpstream
        (queryOf [⟨"example.com.", TypeA⟩, ⟨"other.org.", TypeA⟩, ⟨"example.com.", TypeAAAA⟩])
        emptyWorld).world.exchanges
      = [⟨⟨"example.com.", TypeA⟩, "8.8.8.8:53"⟩, ⟨⟨"other.org.", TypeA⟩, "8.8.8.8:53"⟩] ∧
    ∃ e, cdnUpstream 1 ⟨"other.org.", TypeA⟩ "8.8.8.8:53" = .error e ∧
      (processLookupQuery homeConfig cdnUpstream
        (queryOf [⟨"example.com.", TypeA⟩, ⟨"other.org.", TypeA⟩, ⟨"example.com.", TypeAAAA⟩])
        emptyWorld).err = some (.exchange e) :=
  first_failing_question_aborts_query homeConfig cdnUpstream
    (queryOf [⟨"example.com.", TypeA⟩, ⟨"other.org.", TypeA⟩, ⟨"example.com.", TypeAAAA⟩])
    emptyWorld
    { exchanges := [⟨⟨"example.com.", TypeA⟩, "8.8.8.8:53"⟩], logs := [], written := [] }
    [⟨"example.com.", TypeA⟩] [⟨"example.com.", TypeAAAA⟩] ⟨"other.org.", TypeA⟩
    [[⟨"example.com.", TypeCNAME, "cdn.example.net."⟩, ⟨"cdn.example.net.", TypeA, "192.0.2.7"⟩]]
    rfl
    (.answered 0 ⟨"8.8.8.8", 53, "udp"⟩ cdnReply _ (by decide) (by decide)
      (fun i _ hi _ => absurd hi (Nat.not_lt_zero i)) rfl rfl (.done _))
    (by decide) (by decide)
    (fun _ s _ => ⟨⟨"unreachable " ++ serverString s⟩, rfl⟩)

/-- C9: whenever processLookupQuery returns a nil error, the answer list it has
set on the message is a present list (possibly of length zero), never nil. -/
theorem answers_present_on_success (config : DNSConfig) (up : Upstream) (req : Msg)
    (w : World) (h : (processLookupQuery config up req w).err = none) :
    ∃ answers, (processLookupQuery config up req w).req.Answer = some answers := by
  unfold processLookupQuery at h ⊢
  rcases hl : questionLoop config up req.Question [] w with ⟨r, w1⟩
  rw [hl] at h
  cases r with
  | error e => simp at h
  | ok answers => exact ⟨answers, rfl⟩

/-- Witness of C9: a query whose only question is blocked; the answers are the
allocated empty list. -/
theorem answers_present_on_success_witness :
    ∃ answers, (processLookupQuery homeConfig cdnUpstream
      (queryOf [⟨"ads.example.com.", TypeA⟩]) emptyWorld).req.Answer = some answers :=
  answers_present_on_success homeConfig cdnUpstream (queryOf [⟨"ads.example.com.", TypeA⟩])
    emptyWorld (by decide)

/-- C10: for a message whose opcode is not the query opcode, handleDNSRequest
writes exactly one message, a reply with the id of the request, compression
off and a nil answer list, performs no exchange and logs nothing; the outcome
does not depend on the configuration or on the upstream. -/
theorem non_query_opcode_bypasses_pipeline (config : DNSConfig) (up : Upstream) (req : Msg)
    (w : World) (hop : req.Opcode ≠ OpcodeQuery) :
    (∃ reply, handleDNSRequest config up req w = { w with written := w.written ++ [reply] } ∧
      reply.Id = req.Id ∧ reply.Response = true ∧ reply.Compress = false ∧
      reply.Answer = none) ∧
    ∀ (config2 : DNSConfig) (up2 : Upstream),
      handleDNSRequest config2 up2 req w = handleDNSRequest config up req w := by
  constructor
  · refine ⟨{ SetReply newMsg req with Compress := false }, ?_, rfl, rfl, rfl, rfl⟩
    simp [handleDNSRequest, hop]
  · intro config2 up2
    simp [handleDNSRequest, hop]

/-- Witness of C10: an update message gets the empty reply and the unreachable
upstream is not noticed. -/
theorem non_query_opcode_bypasses_pipeline_witness :
    (∃ reply, handleDNSRequest homeConfig unreachableUpstream updateMsg emptyWorld
        = { emptyWorld with written := emptyWorld.written ++ [reply] } ∧
      reply.Id = updateMsg.Id ∧ reply.Response = true ∧ reply.Compress = false ∧
      reply.Answer = none) ∧
    ∀ (config2 : DNSConfig) (up2 : Upstream),
      handleDNSRequest config2 up2 updateMsg emptyWorld
        = handleDNSRequest homeConfig unreachableUpstream updateMsg emptyWorld :=
  non_query_opcode_bypasses_pipeline homeConfig unreachableUpstream updateMsg emptyWorld
    (by decide)

/-! ## Further facts about the loops -/

theorem questionLoop_written (config : DNSConfig) (up : Upstream) (qs : List Question)
    (answers : List RR) (w : World) :
    (questionLoop config up qs answers w).2.written = w.written := by
  induction qs generalizing answers w with
  | nil => rfl
  | cons q rest ih =>
    have hw : (performLookup config up q.Name q.Qtype w).2.written = w.written := by
      unfold performLookup
      simp only
      split
      · exact forwardLoop_written _ _ _ _ _
      · rfl
    rw [questionLoop]
    split
    · exact hw
    · split
      · exact hw
      · rw [ih, hw]

theorem processLookupQuery_written (config : DNSConfig) (up : Upstream) (req : Msg) (w : World) :
    (processLookupQuery config up req w).world.written = w.written := by
  have h := questionLoop_written config up req.Question [] w
  unfold processLookupQuery
  rcases hl : questionLoop config up req.Question [] w with ⟨r, w1⟩
  rw [hl] at h
  cases r with
  | error e => exact h
  | ok answers => exact h

theorem processLookupQuery_req (config : DNSConfig) (up : Upstream) (req : Msg) (w : World) :
    (processLookupQuery config up req w).req.Id = req.Id ∧
    (processLookupQuery config up req w).req.Response = req.Response ∧
    (processLookupQuery config up req w).req.Compress = req.Compress ∧
    ((processLookupQuery config up req w).err ≠ none →
      (processLookupQuery config up req w).req = req) := by
  unfold processLookupQuery
  rcases hl : questionLoop config up req.Question [] w with ⟨r, w1⟩
  cases r with
  | error e => simp
  | ok answers => simp

theorem forwardLoop_congr (up : Upstream) (q : Question) :
    ∀ (l1 l2 : List DNSForwardingServer) (st : Lookup) (w : World),
      l1.map serverString = l2.map serverString →
      forwardLoop up q l1 st w = forwardLoop up q l2 st w := by
  intro l1
  induction l1 with
  | nil =>
    intro l2 st w h
    cases l2 with
    | nil => rfl
    | cons s2 r2 => simp at h
  | cons s1 r1 ih =>
    intro l2 st w h
    cases l2 with
    | nil => simp at h
    | cons s2 r2 =>
      simp only [List.map_cons, List.cons.injEq] at h
      rw [forwardLoop, forwardLoop, ← h.1]
      split
      · rfl
      · exact ih r2 _ _ h.2

/-! ## The request handler, filter order, the nil-answer guard, the protocol field -/

/-- C11: for a standard query handleDNSRequest writes exactly one message, the
reply to the request, whether processLookupQuery fails or not; when it fails
the reply has a nil answer list (no record) and the error is handed to the
logger. -/
theorem standard_query_gets_one_reply (config : DNSConfig) (up : Upstream) (req : Msg)
    (w : World) (hop : req.Opcode = OpcodeQuery) :
    ∃ reply, (handleDNSRequest config up req w).written = w.written ++ [reply] ∧
      reply.Id = req.Id ∧ reply.Response = true ∧ reply.Compress = false ∧
      ∀ e, (processLookupQuery config up { SetReply newMsg req with Compress := false } w).err
            = some e →
        reply.Answer = none ∧
        (handleDNSRequest config up req w).logs
          = (processLookupQuery config up { SetReply newMsg req with Compress := false }
              w).world.logs ++ [.duringQuery e] := by
  have hreq := processLookupQuery_req config up { SetReply newMsg req with Compress := false } w
  have hwr := processLookupQuery_written config up
    { SetReply newMsg req with Compress := false } w
  refine ⟨(processLookupQuery config up { SetReply newMsg req with Compress := false } w).req,
    ?_, hreq.1, hreq.2.1, hreq.2.2.1, ?_⟩
  · simp only [handleDNSRequest, hop, if_true]
    split <;> simp [hwr]
  · intro e he
    constructor
    · rw [hreq.2.2.2 (by rw [he]; simp)]
      rfl
    · simp only [handleDNSRequest, hop, if_true, he]

/-- Witness of C11: the forwarder 1.2.3.4:53 cannot be reached, there is no
filter, and the query asks for "test.com." of type A: one reply is written, it
has no answer, and the error of the exchange is logged. -/
theorem standard_query_gets_one_reply_witness :
    (processLookupQuery unreachableConfig unreachableUpstream
        { SetReply newMsg (queryOf [⟨"test.com.", TypeA⟩]) with Compress := false }
        emptyWorld).err = some (.exchange ⟨"unreachable 1.2.3.4:53"⟩) ∧
    ∃ reply, (handleDNSRequest unreachableConfig unreachableUpstream
        (queryOf [⟨"test.com.", TypeA⟩]) emptyWorld).written = [reply] ∧
      reply.Answer = none := by
  obtain ⟨reply, hw, _, _, _, herr⟩ := standard_query_gets_one_reply unreachableConfig
    unreachableUpstream (queryOf [⟨"test.com.", TypeA⟩]) emptyWorld rfl
  exact ⟨by decide, reply, hw, (herr (.exchange ⟨"unreachable 1.2.3.4:53"⟩) (by decide)).1⟩

/-- C12: two filter lists that are permutations of each other give the same
decision for every name and type: the flag computed by the filter loop is the
same, and so is the whole outcome of performLookup. -/
theorem filter_order_does_not_change_decision (config : DNSConfig) (up : Upstream)
    (host : String) (resultType : Nat) (w : World) (fs1 fs2 : List DNSFilter)
    (hperm : fs1.Perm fs2) :
    filterLoop host resultType fs1 = filterLoop host resultType fs2 ∧
    performLookup { config with Filters := fs1 } up host resultType w
      = performLookup { config with Filters := fs2 } up host resultType w := by
  have hiff : filterLoop host resultType fs1 = false ↔ filterLoop host resultType fs2 = false := by
    rw [filterLoop_false_iff, filterLoop_false_iff]
    constructor
    · rintro ⟨r, hr, h⟩
      exact ⟨r, hperm.mem_iff.1 hr, h⟩
    · rintro ⟨r, hr, h⟩
      exact ⟨r, hperm.mem_iff.2 hr, h⟩
  have heq : filterLoop host resultType fs1 = filterLoop host resultType fs2 := by
    cases h1 : filterLoop host resultType fs1 with
    | false => exact (hiff.1 h1).symm
    | true =>
      cases h2 : filterLoop host resultType fs2 with
      | false => rw [hiff.2 h2] at h1; cases h1
      | true => rfl
  refine ⟨heq, ?_⟩
  simp only [performLookup, heq]

/-- Witness of C12: an exact rule and a non-exact rule in both orders. -/
theorem filter_order_does_not_change_decision_witness :
    filterLoop "sub.ads.example.com." TypeA
        [⟨"ads.example.com", TypeA, true⟩, ⟨"example.com", TypeA, false⟩]
      = filterLoop "sub.ads.example.com." TypeA
        [⟨"example.com", TypeA, false⟩, ⟨"ads.example.com", TypeA, true⟩] ∧
    performLookup { homeConfig with
        Filters := [⟨"ads.example.com", TypeA, true⟩, ⟨"example.com", TypeA, false⟩] }
        cdnUpstream "sub.ads.example.com." TypeA emptyWorld
      = performLookup { homeConfig with
        Filters := [⟨"example.com", TypeA, false⟩, ⟨"ads.example.com", TypeA, true⟩] }
        cdnUpstream "sub.ads.example.com." TypeA emptyWorld :=
  filter_order_does_not_change_decision homeConfig cdnUpstream "sub.ads.example.com." TypeA
    emptyWorld _ _ (List.Perm.swap _ _ [])

/-- C18: when the questions before question q are all blocked or answered, q is
not blocked and the first reply without error for q has a nil answer list,
processLookupQuery returns the error made for nil results, which is no error of
an exchange, leaves the message as it was, and performs no exchange after the
one that brought the reply: no later question is looked up. -/
theorem nil_answer_reply_is_pipeline_error (config : DNSConfig) (up : Upstream)
    (req : Msg) (w w1 : World) (pre post : List Question) (q : Question)
    (rs : List (List RR)) (k : Nat) (server : DNSForwardingServer) (reply : Msg)
    (hq : req.Question = pre ++ q :: post)
    (hpre : Resolved config up w pre rs w1)
    (hallow : filterLoop q.Name q.Qtype config.Filters = true)
    (hk : config.Forwarders[k]? = some server)
    (hfail : ∀ i s, i < k → config.Forwarders[i]? = some s →
      ∃ e, up (w1.exchanges.length + i) q (serverString s) = .error e)
    (hok : up (w1.exchanges.length + k) q (serverString server) = .ok reply)
    (hnil : reply.Answer = none) :
    (processLookupQuery config up req w).err = some .nilResults ∧
    (∀ e, (processLookupQuery config up req w).err ≠ some (.exchange e)) ∧
    (processLookupQuery config up req w).req = req ∧
    (processLookupQuery config up req w).world.exchanges
      = w1.exchanges ++ (config.Forwarders.take (k + 1)).map (fun s => ⟨q, serverString s⟩) := by
  have hloop := questionLoop_resolved config up hpre (q :: post) []
  have hl := performLookup_allowed config up q w1 hallow
  have hs := forwardLoop_success up q config.Forwarders k server reply
    { results := some [], dnsServerErr := none } w1 hk hfail hok
  rw [← hl, hnil] at hs
  have hstep : questionLoop config up (q :: post)
      ([] ++ (List.zipWith
        (fun q recs => recs.filter (fun r => decide (r.Name = q.Name))) pre rs).flatten) w1
      = (.error .nilResults, (performLookup config up q.Name q.Qtype w1).2) := by
    rw [questionLoop]
    simp only [hs.1]
  rw [hstep] at hloop
  have herr : (processLookupQuery config up req w).err = some .nilResults := by
    simp only [processLookupQuery, hq, hloop]
  refine ⟨herr, ?_, ?_, ?_⟩
  · intro e he
    rw [herr] at he
    cases he
  · simp only [processLookupQuery, hq, hloop]
  · simp only [processLookupQuery, hq, hloop]
    exact hs.2

/-- Witness of C18: the first forwarder times out, the second replies without
error and with a nil answer list; the second question is never sent. -/
theorem nil_answer_reply_is_pipeline_error_witness :
    (processLookupQuery failoverConfig failoverUpstream
        (queryOf [⟨"example.com.", TypeA⟩, ⟨"example.org.", TypeA⟩]) emptyWorld).err
      = some .nilResults ∧
    (processLookupQuery failoverConfig failoverUpstream
        (queryOf [⟨"example.com.", TypeA⟩, ⟨"example.org.", TypeA⟩]) emptyWorld).req
      = queryOf [⟨"example.com.", TypeA⟩, ⟨"example.org.", TypeA⟩] ∧
    (processLookupQuery failoverConfig failoverUpstream
        (queryOf [⟨"example.com.", TypeA⟩, ⟨"example.org.", TypeA⟩]) emptyWorld).world.exchanges
      = [⟨⟨"example.com.", TypeA⟩, "10.0.0.1:53"⟩, ⟨⟨"example.com.", TypeA⟩, "10.0.0.2:53"⟩] := by
  have h := nil_answer_reply_is_pipeline_error failoverConfig failoverUpstream
    (queryOf [⟨"example.com.", TypeA⟩, ⟨"example.org.", TypeA⟩]) emptyWorld emptyWorld
    [] [⟨"example.org.", TypeA⟩] ⟨"example.com.", TypeA⟩ [] 1 ⟨"10.0.0.2", 53, "udp"⟩ emptyReply
    rfl (.done _) (by decide) (by decide)
    (by
      intro i s hi hs
      have h0 : i = 0 := by omega
      subst h0
      have hs0 : s = ⟨"10.0.0.1", 53, "udp"⟩ := by
        simpa [failoverConfig] using hs.symm
      subst hs0
      exact ⟨⟨"i/o timeout"⟩, rfl⟩)
    rfl rfl
  exact ⟨h.1, h.2.2.1, h.2.2.2⟩

/-- C20: two configurations with the same filters whose forwarder lists agree,
position by position, on IPAddress and Port give the same outcome of
performLookup for every name, type, upstream and starting world: the same
results and error, the same exchanges with the same targets in the same order,
the same log entries. The Protocol fields play no part. -/
theorem protocol_field_is_ignored (c1 c2 : DNSConfig) (up : Upstream) (host : String)
    (resultType : Nat) (w : World)
    (hfilters : c1.Filters = c2.Filters)
    (haddr : c1.Forwarders.map (fun s => (s.IPAddress, s.Port))
      = c2.Forwarders.map (fun s => (s.IPAddress, s.Port))) :
    performLookup c1 up host resultType w = performLookup c2 up host resultType w := by
  have hmap : c1.Forwarders.map serverString = c2.Forwarders.map serverString := by
    have h := congrArg (List.map (fun p : String × Int => p.1 ++ ":" ++ toString p.2)) haddr
    simpa [List.map_map, Function.comp_def, serverString] using h
  simp only [performLookup, hfilters]
  split
  · exact forwardLoop_congr up _ _ _ _ w hmap
  · rfl

/-- Witness of C20: the forwarders of `failoverConfig` with udp and tcp
exchanged. -/
theorem protocol_field_is_ignored_witness :
    performLookup failoverConfig failoverUpstream "example.com." TypeA emptyWorld
      = performLookup failoverConfigTcp failoverUpstream "example.com." TypeA emptyWorld :=
  protocol_field_is_ignored failoverConfig failoverConfigTcp failoverUpstream "example.com."
    TypeA emptyWorld rfl (by decide)

/-! ## Facts about parseConfigFile -/

theorem assertInt64_none (v : JSON) : assertInt64 v = none := by
  cases v <;> rfl

theorem forwardersLoop_object (fields : List (String × JSON)) (rest : List JSON)
    (acc : List DNSForwardingServer) :
    forwardersLoop (.object fields :: rest) acc =
      match assertString (index fields "host") with
      | none => forwardersLoop rest acc
      | some forwardHost =>
        if len forwardHost < len "8.8.8.8" then forwardersLoop rest acc
        else
          match assertString (index fields "protocol") with
          | none => forwardersLoop rest (acc ++ [⟨forwardHost, 53, "udp"⟩])
          | some forwardProtocol =>
            if forwardProtocol ≠ "udp" ∧ forwardProtocol ≠ "tcp" then
              .error (.invalidProtocol forwardProtocol forwardHost)
            else forwardersLoop rest (acc ++ [⟨forwardHost, 53, forwardProtocol⟩]) := by
  rw [forwardersLoop]
  simp only [assertMap, assertInt64_none]

theorem forwardersLoop_not_object (entry : JSON) (rest : List JSON)
    (acc : List DNSForwardingServer) (h : assertMap entry = none) :
    forwardersLoop (entry :: rest) acc = .panic := by
  rw [forwardersLoop, h]

theorem assertMap_none_or (entry : JSON) :
    assertMap entry = none ∨ ∃ fields, entry = .object fields := by
  cases entry <;> simp [assertMap]

theorem forwardersLoop_ports (items : List JSON) :
    ∀ (acc out : List DNSForwardingServer), forwardersLoop items acc = .ok out →
      (∀ s ∈ acc, s.Port = 53) → ∀ s ∈ out, s.Port = 53 := by
  induction items with
  | nil =>
    intro acc out h hacc
    simp only [forwardersLoop, Outcome.ok.injEq] at h
    subst h
    exact hacc
  | cons entry rest ih =>
    intro acc out h hacc
    rcases assertMap_none_or entry with hn | ⟨fields, rfl⟩
    · rw [forwardersLoop_not_object entry rest acc hn] at h
      cases h
    · rw [forwardersLoop_object] at h
      split at h
      · exact ih acc out h hacc
      · split at h
        · exact ih acc out h hacc
        · split at h
          · refine ih _ out h ?_
            intro s hs
            rcases List.mem_append.1 hs with hs | hs
            · exact hacc s hs
            · rw [List.mem_singleton] at hs
              subst hs
              rfl
          · split at h
            · cases h
            · refine ih _ out h ?_
              intro s hs
              rcases List.mem_append.1 hs with hs | hs
              · exact hacc s hs
              · rw [List.mem_singleton] at hs
                subst hs
                rfl

theorem forwardersLoop_no_valid (items : List JSON) :
    ∀ (acc out : List DNSForwardingServer),
      (∀ entry ∈ items, ∀ fields h, entry = JSON.object fields →
        assertString (index fields "host") = some h → len h < len "8.8.8.8") →
      forwardersLoop items acc = .ok out → out = acc := by
  induction items with
  | nil =>
    intro acc out _ h
    simp only [forwardersLoop, Outcome.ok.injEq] at h
    exact h.symm
  | cons entry rest ih =>
    intro acc out hshort h
    have hrest : ∀ e ∈ rest, ∀ fields h, e = JSON.object fields →
        assertString (index fields "host") = some h → len h < len "8.8.8.8" :=
      fun e he => hshort e (List.mem_cons_of_mem _ he)
    rcases assertMap_none_or entry with hn | ⟨fields, rfl⟩
    · rw [forwardersLoop_not_object entry rest acc hn] at h
      cases h
    · rw [forwardersLoop_object] at h
      split at h
      · exact ih acc out hrest h
      · rename_i forwardHost hhost
        have hlt := hshort _ (List.mem_cons_self _ _) fields forwardHost rfl hhost
        rw [if_pos hlt] at h
        exact ih acc out hrest h

theorem forwardersLoop_invalid_protocol (items : List JSON) :
    ∀ (acc : List DNSForwardingServer) (fields : List (String × JSON)) (h p : String),
      (∀ entry ∈ items, ∃ fs, entry = JSON.object fs) →
      JSON.object fields ∈ items →
      assertString (index fields "host") = some h → len "8.8.8.8" ≤ len h →
      assertString (index fields "protocol") = some p → p ≠ "udp" ∧ p ≠ "tcp" →
      ∃ p2 h2, (p2 ≠ "udp" ∧ p2 ≠ "tcp") ∧
        forwardersLoop items acc = .error (.invalidProtocol p2 h2) := by
  induction items with
  | nil => intro acc fields h p _ hmem; simp at hmem
  | cons entry rest ih =>
    intro acc fields h p hobj hmem hhost hlen hproto hp
    have hrest : ∀ e ∈ rest, ∃ fs, e = JSON.object fs :=
      fun e he => hobj e (List.mem_cons_of_mem _ he)
    rcases List.mem_cons.1 hmem with hhead | htail
    · subst hhead
      rw [forwardersLoop_object, hhost]
      simp only
      rw [if_neg (Nat.not_lt.2 hlen), hproto]
      simp only
      rw [if_pos hp]
      exact ⟨p, h, hp, rfl⟩
    · obtain ⟨fs, rfl⟩ := hobj entry (List.mem_cons_self _ _)
      rw [forwardersLoop_object]
      split
      · exact ih acc fields h p hrest htail hhost hlen hproto hp
      · split
        · exact ih acc fields h p hrest htail hhost hlen hproto hp
        · split
          · exact ih _ fields h p hrest htail hhost hlen hproto hp
          · split
            · rename_i p2 _ hp2
              exact ⟨p2, _, hp2, rfl⟩
            · exact ih _ fields h p hrest htail hhost hlen hproto hp

theorem forwardersLoop_no_panic (items : List JSON) :
    ∀ (acc : List DNSForwardingServer),
      (∀ entry ∈ items, ∃ fs, entry = JSON.object fs) →
      forwardersLoop items acc ≠ .panic := by
  induction items with
  | nil => intro acc _; simp [forwardersLoop]
  | cons entry rest ih =>
    intro acc hobj
    have hrest : ∀ e ∈ rest, ∃ fs, e = JSON.object fs :=
      fun e he => hobj e (List.mem_cons_of_mem _ he)
    obtain ⟨fs, rfl⟩ := hobj entry (List.mem_cons_self _ _)
    rw [forwardersLoop_object]
    split
    · exact ih acc hrest
    · split
      · exact ih acc hrest
      · split
        · exact ih _ hrest
        · split
          · simp
          · exact ih _ hrest

theorem filtersLoop_not_object (entry : JSON) (rest : List JSON) (acc : List DNSFilter)
    (h : assertMap entry = none) : filtersLoop (entry :: rest) acc = .panic := by
  rw [filtersLoop, h]

theorem filtersLoop_no_host (fields : List (String × JSON)) (rest : List JSON)
    (acc : List DNSFilter) (hhost : assertString (index fields "host") = none) :
    filtersLoop (.object fields :: rest) acc = filtersLoop rest acc := by
  rw [filtersLoop]
  simp only [assertMap, hhost]

theorem filtersLoop_short_host (fields : List (String × JSON)) (rest : List JSON)
    (acc : List DNSFilter) (h : String) (hhost : assertString (index fields "host") = some h)
    (hlen : len h < len "a.io") :
    filtersLoop (.object fields :: rest) acc = filtersLoop rest acc := by
  rw [filtersLoop]
  simp only [assertMap, hhost, if_pos hlen]

theorem filtersLoop_type_all (fields : List (String × JSON)) (rest : List JSON)
    (acc : List DNSFilter) (h : String) (hhost : assertString (index fields "host") = some h)
    (hlen : len "a.io" ≤ len h)
    (htype : assertString (index fields "type") = none ∨
      assertString (index fields "type") = some "ALL") :
    filtersLoop (.object fields :: rest) acc
      = filtersLoop rest (acc ++ [⟨h, TypeANY, false⟩]) := by
  rw [filtersLoop]
  simp only [assertMap, hhost, if_neg (Nat.not_lt.2 hlen)]
  rcases htype with ht | ht <;> simp [ht, filterIntOf]

theorem filtersLoop_typed (fields : List (String × JSON)) (rest : List JSON)
    (acc : List DNSFilter) (h t : String) (hhost : assertString (index fields "host") = some h)
    (hlen : len "a.io" ≤ len h) (htype : assertString (index fields "type") = some t)
    (ht : t ≠ "ALL") :
    filtersLoop (.object fields :: rest) acc =
      match assertString (index fields "matching") with
      | some matchingType =>
        if matchingType = "contains" then
          filtersLoop rest (acc ++ [⟨h, filterIntOf t, false⟩])
        else if matchingType = "exact" then
          filtersLoop rest (acc ++ [⟨h, filterIntOf t, true⟩])
        else .error (.invalidMatching matchingType h)
      | none => .error (.missingMatching h) := by
  rw [filtersLoop]
  simp only [assertMap, hhost, if_neg (Nat.not_lt.2 hlen), htype, if_neg ht]

/-- The three ways in which the filter loop treats an entry that is a map: it
drops it, it admits one rule with the host of the entry, or it returns an
error. -/
theorem filtersLoop_step (fields : List (String × JSON)) (rest : List JSON)
    (acc : List DNSFilter) :
    ((∀ h, assertString (index fields "host") = some h → len h < len "a.io") ∧
      filtersLoop (.object fields :: rest) acc = filtersLoop rest acc) ∨
    (∃ h r, assertString (index fields "host") = some h ∧ len "a.io" ≤ len h ∧ r.Host = h ∧
      filtersLoop (.object fields :: rest) acc = filtersLoop rest (acc ++ [r])) ∨
    (∃ e, filtersLoop (.object fields :: rest) acc = .error e) := by
  cases hhost : assertString (index fields "host") with
  | none =>
    exact Or.inl ⟨fun h hh => (nomatch hh), filtersLoop_no_host fields rest acc hhost⟩
  | some h =>
    by_cases hlen : len h < len "a.io"
    · refine Or.inl ⟨fun h2 hh => ?_, filtersLoop_short_host fields rest acc h hhost hlen⟩
      cases hh
      exact hlen
    · have hge : len "a.io" ≤ len h := Nat.not_lt.1 hlen
      cases htype : assertString (index fields "type") with
      | none =>
        exact Or.inr (Or.inl ⟨h, _, rfl, hge, rfl,
          filtersLoop_type_all fields rest acc h hhost hge (Or.inl htype)⟩)
      | some t =>
        by_cases ht : t = "ALL"
        · subst ht
          exact Or.inr (Or.inl ⟨h, _, rfl, hge, rfl,
            filtersLoop_type_all fields rest acc h hhost hge (Or.inr htype)⟩)
        · rw [filtersLoop_typed fields rest acc h t hhost hge htype ht]
          cases assertString (index fields "matching") with
          | none => exact Or.inr (Or.inr ⟨_, rfl⟩)
          | some m =>
            by_cases hc : m = "contains"
            · exact Or.inr (Or.inl ⟨h, ⟨h, filterIntOf t, false⟩, rfl, hge, rfl, by simp [hc]⟩)
            · by_cases he : m = "exact"
              · exact Or.inr (Or.inl ⟨h, ⟨h, filterIntOf t, true⟩, rfl, hge, rfl,
                  by simp [hc, he]⟩)
              · exact Or.inr (Or.inr ⟨.invalidMatching m h, by simp [hc, he]⟩)

theorem admittedHosts_cons_object (fields : List (String × JSON)) (rest : List JSON) :
    admittedHosts (.object fields :: rest) =
      match assertString (index fields "host") with
      | none => admittedHosts rest
      | some h => if len "a.io" ≤ len h then h :: admittedHosts rest else admittedHosts rest := by
  unfold admittedHosts
  cases hh : assertString (index fields "host") with
  | none => simp [List.filterMap_cons, hostOf, hh]
  | some h =>
    by_cases hl : len "a.io" ≤ len h
    · simp [List.filterMap_cons, hostOf, hh, List.filter_cons, hl]
    · simp [List.filterMap_cons, hostOf, hh, List.filter_cons, hl]

theorem filtersLoop_hosts (items : List JSON) :
    ∀ (acc out : List DNSFilter), filtersLoop items acc = .ok out →
      out.map (fun r => r.Host) = acc.map (fun r => r.Host) ++ admittedHosts items := by
  induction items with
  | nil =>
    intro acc out h
    simp only [filtersLoop, Outcome.ok.injEq] at h
    subst h
    simp [admittedHosts]
  | cons entry rest ih =>
    intro acc out h
    rcases assertMap_none_or entry with hn | ⟨fields, rfl⟩
    · rw [filtersLoop_not_object entry rest acc hn] at h
      cases h
    · rw [admittedHosts_cons_object]
      rcases filtersLoop_step fields rest acc with ⟨hdrop, heq⟩ | ⟨hh, r, hhost, hlen, hr, heq⟩ |
        ⟨e, heq⟩
      · rw [heq] at h
        rw [ih acc out h]
        cases hhost : assertString (index fields "host") with
        | none => rfl
        | some h2 =>
          have := hdrop h2 hhost
          simp only
          rw [if_neg (Nat.not_le.2 this)]
      · rw [heq] at h
        rw [ih _ out h, hhost]
        simp only
        rw [if_pos hlen]
        simp [hr]
      · rw [heq] at h
        cases h

theorem admittedHosts_len (items : List JSON) :
    ∀ h ∈ admittedHosts items, len "a.io" ≤ len h := by
  intro h hh
  unfold admittedHosts at hh
  simpa using (List.mem_filter.1 hh).2

theorem filtersLoop_no_panic (items : List JSON) :
    ∀ (acc : List DNSFilter), (∀ entry ∈ items, ∃ fs, entry = JSON.object fs) →
      filtersLoop items acc ≠ .panic := by
  induction items with
  | nil => intro acc _; simp [filtersLoop]
  | cons entry rest ih =>
    intro acc hobj
    have hrest : ∀ e ∈ rest, ∃ fs, e = JSON.object fs :=
      fun e he => hobj e (List.mem_cons_of_mem _ he)
    obtain ⟨fs, rfl⟩ := hobj entry (List.mem_cons_self _ _)
    rcases filtersLoop_step fs rest acc with ⟨_, heq⟩ | ⟨_, _, _, _, _, heq⟩ | ⟨e, heq⟩
    · rw [heq]; exact ih acc hrest
    · rw [heq]; exact ih _ hrest
    · rw [heq]; simp

theorem filtersLoop_matching_required (items : List JSON) :
    ∀ (acc : List DNSFilter) (fields : List (String × JSON)) (h t : String),
      (∀ entry ∈ items, ∃ fs, entry = JSON.object fs) →
      JSON.object fields ∈ items →
      assertString (index fields "host") = some h → len "a.io" ≤ len h →
      assertString (index fields "type") = some t → t ≠ "ALL" →
      (∀ m, assertString (index fields "matching") = some m → m ≠ "contains" ∧ m ≠ "exact") →
      ∃ e, filtersLoop items acc = .error e := by
  induction items with
  | nil => intro acc fields h t _ hmem; simp at hmem
  | cons entry rest ih =>
    intro acc fields h t hobj hmem hhost hlen htype ht hmatch
    have hrest : ∀ e ∈ rest, ∃ fs, e = JSON.object fs :=
      fun e he => hobj e (List.mem_cons_of_mem _ he)
    rcases List.mem_cons.1 hmem with hhead | htail
    · subst hhead
      rw [filtersLoop_typed fields rest acc h t hhost hlen htype ht]
      cases hm : assertString (index fields "matching") with
      | none => exact ⟨_, rfl⟩
      | some m =>
        obtain ⟨hc, he⟩ := hmatch m hm
        exact ⟨.invalidMatching m h, by simp [hc, he]⟩
    · obtain ⟨fs, rfl⟩ := hobj entry (List.mem_cons_self _ _)
      rcases filtersLoop_step fs rest acc with ⟨_, heq⟩ | ⟨_, _, _, _, _, heq⟩ | ⟨e, heq⟩
      · rw [heq]; exact ih acc fields h t hrest htail hhost hlen htype ht hmatch
      · rw [heq]; exact ih _ fields h t hrest htail hhost hlen htype ht hmatch
      · exact ⟨e, heq⟩

theorem filtersLoop_kept (fields : List (String × JSON)) (rest : List JSON)
    (acc : List DNSFilter) (h : String) (hhost : assertString (index fields "host") = some h)
    (hlen : len "a.io" ≤ len h) :
    (∃ r, AdmittedAs fields r ∧
      filtersLoop (.object fields :: rest) acc = filtersLoop rest (acc ++ [r])) ∨
    (∃ e, filtersLoop (.object fields :: rest) acc = .error e) := by
  cases htype : assertString (index fields "type") with
  | none =>
    refine Or.inl ⟨⟨h, TypeANY, false⟩, ?_,
      filtersLoop_type_all fields rest acc h hhost hlen (Or.inl htype)⟩
    intro h2 hh2
    rw [hhost] at hh2
    cases hh2
    exact ⟨rfl, fun _ => ⟨rfl, rfl⟩⟩
  | some t =>
    by_cases ht : t = "ALL"
    · subst ht
      refine Or.inl ⟨⟨h, TypeANY, false⟩, ?_,
        filtersLoop_type_all fields rest acc h hhost hlen (Or.inr htype)⟩
      intro h2 hh2
      rw [hhost] at hh2
      cases hh2
      exact ⟨rfl, fun _ => ⟨rfl, rfl⟩⟩
    · have hnot : ¬ (assertString (index fields "type") = none ∨
          assertString (index fields "type") = some "ALL") := by
        rw [htype]
        rintro (hn | hs)
        · cases hn
        · exact ht (Option.some.inj hs)
      have hadm : ∀ r : DNSFilter, r.Host = h → AdmittedAs fields r := by
        intro r hr h2 hh2
        rw [hhost] at hh2
        cases hh2
        exact ⟨hr, fun hall => absurd hall hnot⟩
      rw [filtersLoop_typed fields rest acc h t hhost hlen htype ht]
      cases assertString (index fields "matching") with
      | none => exact Or.inr ⟨_, rfl⟩
      | some m =>
        by_cases hc : m = "contains"
        · exact Or.inl ⟨⟨h, filterIntOf t, false⟩, hadm _ rfl, by simp [hc]⟩
        · by_cases he : m = "exact"
          · exact Or.inl ⟨⟨h, filterIntOf t, true⟩, hadm _ rfl, by simp [hc, he]⟩
          · exact Or.inr ⟨.invalidMatching m h, by simp [hc, he]⟩

theorem keptEntries_cons_object (fields : List (String × JSON)) (rest : List JSON) :
    keptEntries (.object fields :: rest) =
      match assertString (index fields "host") with
      | none => keptEntries rest
      | some h => if len "a.io" ≤ len h then fields :: keptEntries rest else keptEntries rest := by
  unfold keptEntries
  cases hh : assertString (index fields "host") with
  | none => simp [List.filterMap_cons, hh]
  | some h =>
    by_cases hl : len "a.io" ≤ len h
    · simp [List.filterMap_cons, hh, hl]
    · simp [List.filterMap_cons, hh, hl]

theorem filtersLoop_rules (items : List JSON) :
    ∀ (acc out : List DNSFilter), filtersLoop items acc = .ok out →
      ∃ tail, out = acc ++ tail ∧ List.Forall₂ AdmittedAs (keptEntries items) tail := by
  induction items with
  | nil =>
    intro acc out h
    simp only [filtersLoop, Outcome.ok.injEq] at h
    exact ⟨[], by simp [h], by simp [keptEntries]⟩
  | cons entry rest ih =>
    intro acc out h
    rcases assertMap_none_or entry with hn | ⟨fields, rfl⟩
    · rw [filtersLoop_not_object entry rest acc hn] at h
      cases h
    · rw [keptEntries_cons_object]
      cases hhost : assertString (index fields "host") with
      | none =>
        rw [filtersLoop_no_host fields rest acc hhost] at h
        exact ih acc out h
      | some host =>
        by_cases hlen : len "a.io" ≤ len host
        · simp only [if_pos hlen]
          rcases filtersLoop_kept fields rest acc host hhost hlen with ⟨r, hadm, heq⟩ | ⟨e, heq⟩
          · rw [heq] at h
            obtain ⟨tail, hout, hall⟩ := ih _ out h
            exact ⟨r :: tail, by simp [hout], List.Forall₂.cons hadm hall⟩
          · rw [heq] at h
            cases h
        · simp only [if_neg hlen]
          rw [filtersLoop_short_host fields rest acc host hhost (Nat.not_le.1 hlen)] at h
          exact ih acc out h

theorem parseConfigFile_ok (env : ConfigEnv) (configPath : String)
    (configMap : List (String × JSON)) (c : DNSConfig)
    (hload : env.load configPath = .ok configMap)
    (hcfg : parseConfigFile env configPath = .ok c) :
    parseForwarders configMap = .ok c.Forwarders ∧ parseFilters configMap = .ok c.Filters := by
  unfold parseConfigFile at hcfg
  rw [hload] at hcfg
  simp only at hcfg
  cases hf : parseForwarders configMap with
  | error e => rw [hf] at hcfg; cases hcfg
  | panic => rw [hf] at hcfg; cases hcfg
  | ok dnsServers =>
    rw [hf] at hcfg
    simp only at hcfg
    cases hfi : parseFilters configMap with
    | error e => rw [hfi] at hcfg; cases hcfg
    | panic => rw [hfi] at hcfg; cases hcfg
    | ok dnsFilters =>
      rw [hfi] at hcfg
      simp only at hcfg
      split at hcfg
      · split at hcfg
        · cases hcfg; exact ⟨rfl, rfl⟩
        · cases hcfg
      · split at hcfg
        · cases hcfg
        · split at hcfg
          · cases hcfg; exact ⟨rfl, rfl⟩
          · cases hcfg

theorem parseConfigFile_forwarders_error (env : ConfigEnv) (configPath : String)
    (configMap : List (String × JSON)) (e : ConfigError)
    (hload : env.load configPath = .ok configMap)
    (hf : parseForwarders configMap = .error e) :
    parseConfigFile env configPath = .error e := by
  unfold parseConfigFile
  rw [hload]
  simp only [hf]

theorem parseConfigFile_filters_error (env : ConfigEnv) (configPath : String)
    (configMap : List (String × JSON)) (e : ConfigError)
    (hload : env.load configPath = .ok configMap)
    (hnp : parseForwarders configMap ≠ .panic)
    (hf : parseFilters configMap = .error e) :
    ∃ e2, parseConfigFile env configPath = .error e2 := by
  unfold parseConfigFile
  rw [hload]
  simp only
  cases hfw : parseForwarders configMap with
  | error e1 => exact ⟨e1, rfl⟩
  | panic => exact absurd hfw hnp
  | ok dnsServers => exact ⟨e, by simp only [hf]⟩

/-! ## The configuration (parseConfigFile) -/

/-- C13, counterexample: performLookup does not ignore ExactMatching on a rule
of type ANY. For the type ANY question "sub.ads.example.com." the rule
"ads.example.com" blocks when it is non-exact and forwards when it is exact;
and parseConfigFile admits a filter of type ANY with ExactMatching = true, from
an entry with the type "SRV" and exact matching. -/
theorem exact_wildcard_rule_is_not_substring_rule :
    performLookup { adsConfig with Filters := [⟨"ads.example.com", TypeANY, false⟩] }
        answeringUpstream "sub.ads.example.com." TypeANY emptyWorld
      = ({ results := some [], dnsServerErr := none }, emptyWorld) ∧
    performLookup { adsConfig with Filters := [⟨"ads.example.com", TypeANY, true⟩] }
        answeringUpstream "sub.ads.example.com." TypeANY emptyWorld
      = ({ results := some [⟨"sub.ads.example.com.", TypeANY, "192.0.2.1"⟩],
           dnsServerErr := none },
         { exchanges := [⟨⟨"sub.ads.example.com.", TypeANY⟩, "8.8.8.8:53"⟩],
           logs := [], written := [] }) ∧
    parseConfigFile (envOf unknownTypeDoc) "config.json" = .ok
      { Host := "localhost", Port := 1234,
        Forwarders := setupDefaultDNSForwardingServers,
        Filters := [⟨"ads.example.com", TypeANY, true⟩],
        Logfile := "" } := by
  decide

/-- C13, amended: the matching mode of a wildcard rule is fixed when the
configuration is read. Whenever parseConfigFile returns a configuration, its
rules stand, one for one and in order, for the filter entries with a kept
host, and the rule of every such entry whose type is "ALL" or is no string has
QueryType = TypeANY and ExactMatching = false, whatever its "matching" field.
performLookup itself honours ExactMatching: for a question of type ANY the
non-exact rule blocks exactly the names that contain the host, the exact rule
exactly the host followed by "."; for every type, what the exact rule blocks
the non-exact rule blocks too. -/
theorem wildcard_rule_mode_is_fixed_by_configuration (env : ConfigEnv) (configPath : String)
    (configMap : List (String × JSON)) (c : DNSConfig)
    (hload : env.load configPath = .ok configMap)
    (hcfg : parseConfigFile env configPath = .ok c) :
    List.Forall₂ AdmittedAs
      (keptEntries (match assertSlice (index configMap "filters") with
        | some items => items
        | none => []))
      c.Filters ∧
    ∀ h name : String,
      (filterLoop name TypeANY [⟨h, TypeANY, false⟩] = false ↔
        ∃ a b : String, name = a ++ h ++ b) ∧
      (filterLoop name TypeANY [⟨h, TypeANY, true⟩] = false ↔ name = h ++ ".") ∧
      (∀ t, filterLoop name t [⟨h, TypeANY, true⟩] = false →
        filterLoop name t [⟨h, TypeANY, false⟩] = false) := by
  constructor
  · have hf := (parseConfigFile_ok env configPath configMap c hload hcfg).2
    unfold parseFilters at hf
    cases hs : assertSlice (index configMap "filters") with
    | none =>
      rw [hs] at hf
      simp only [Outcome.ok.injEq] at hf
      rw [← hf]
      simp [keptEntries]
    | some items =>
      rw [hs] at hf
      simp only at hf
      obtain ⟨tail, hout, hall⟩ := filtersLoop_rules items [] c.Filters hf
      rw [List.nil_append] at hout
      rw [hout]
      exact hall
  · intro h name
    refine ⟨?_, ?_, ?_⟩
    · rw [filterLoop_false_iff, ← stringsContains_iff]
      constructor
      · rintro ⟨r, hr, _, hm⟩
        rw [List.mem_singleton] at hr
        subst hr
        rcases hm with ⟨_, hc⟩ | ⟨he, _⟩
        · exact hc
        · cases he
      · intro hc
        exact ⟨_, List.mem_singleton.2 rfl, rfl, Or.inl ⟨rfl, hc⟩⟩
    · rw [filterLoop_false_iff]
      constructor
      · rintro ⟨r, hr, _, hm⟩
        rw [List.mem_singleton] at hr
        subst hr
        rcases hm with ⟨he, _⟩ | ⟨_, hc⟩
        · cases he
        · exact hc.symm
      · intro hc
        exact ⟨_, List.mem_singleton.2 rfl, rfl, Or.inr ⟨rfl, hc.symm⟩⟩
    · intro t ht
      rw [filterLoop_false_iff] at ht ⊢
      obtain ⟨r, hr, hty, hm⟩ := ht
      rw [List.mem_singleton] at hr
      subst hr
      rcases hm with ⟨he, _⟩ | ⟨_, hc⟩
      · cases he
      · refine ⟨_, List.mem_singleton.2 rfl, hty, Or.inl ⟨rfl, ?_⟩⟩
        exact (stringsContains_iff _ _).2 ⟨"", ".", by simpa using hc.symm⟩

/-- Witness of the amended C13: in `sampleDoc` the entry with host
"ads.example.com" and type "ALL" asks for exact matching; parseConfigFile
returns it as a non-exact rule of type ANY, next to the exact rule of type A
of the second kept entry. -/
theorem wildcard_rule_mode_is_fixed_by_configuration_witness :
    parseConfigFile (envOf sampleDoc) "config.json" = .ok
      { Host := "127.0.0.1", Port := 1234,
        Forwarders := [⟨"9.9.9.9", 53, "tcp"⟩, ⟨"1.1.1.1", 53, "udp"⟩],
        Filters := [⟨"ads.example.com", TypeANY, false⟩, ⟨"tracker.example.net", TypeA, true⟩],
        Logfile := "" } ∧
    List.Forall₂ AdmittedAs
      [[("host", .string "ads.example.com"), ("type", .string "ALL"),
        ("matching", .string "exact")],
       [("host", .string "tracker.example.net"), ("type", .string "A"),
        ("matching", .string "exact")]]
      [⟨"ads.example.com", TypeANY, false⟩, ⟨"tracker.example.net", TypeA, true⟩] :=
  ⟨by decide,
   (wildcard_rule_mode_is_fixed_by_configuration (envOf sampleDoc) "config.json" sampleDoc
      { Host := "127.0.0.1", Port := 1234,
        Forwarders := [⟨"9.9.9.9", 53, "tcp"⟩, ⟨"1.1.1.1", 53, "udp"⟩],
        Filters := [⟨"ads.example.com", TypeANY, false⟩, ⟨"tracker.example.net", TypeA, true⟩],
        Logfile := "" } rfl (by decide)).1⟩

/-- C14: whenever parseConfigFile returns a configuration its forwarder list
is not empty; it is the list of setupDefaultDNSForwardingServers, of length 9,
when "forwarders" is no array and when no entry of the array has a host string
of at least `len("8.8.8.8")` bytes. -/
theorem forwarders_are_never_empty (env : ConfigEnv) (configPath : String)
    (configMap : List (String × JSON)) (c : DNSConfig)
    (hload : env.load configPath = .ok configMap)
    (hcfg : parseConfigFile env configPath = .ok c) :
    c.Forwarders ≠ [] ∧
    (assertSlice (index configMap "forwarders") = none →
      c.Forwarders = setupDefaultDNSForwardingServers) ∧
    (∀ items, assertSlice (index configMap "forwarders") = some items →
      (∀ entry ∈ items, ∀ fields h, entry = JSON.object fields →
        assertString (index fields "host") = some h → len h < len "8.8.8.8") →
      c.Forwarders = setupDefaultDNSForwardingServers) ∧
    setupDefaultDNSForwardingServers.length = 9 := by
  have hf := (parseConfigFile_ok env configPath configMap c hload hcfg).1
  unfold parseForwarders at hf
  have hdef : setupDefaultDNSForwardingServers ≠ [] := by decide
  cases hs : assertSlice (index configMap "forwarders") with
  | none =>
    rw [hs] at hf
    simp only [Outcome.ok.injEq] at hf
    refine ⟨by rw [← hf]; exact hdef, fun _ => hf.symm, fun items hi => (nomatch hi), rfl⟩
  | some items =>
    rw [hs] at hf
    simp only at hf
    cases hl : forwardersLoop items [] with
    | error e => rw [hl] at hf; cases hf
    | panic => rw [hl] at hf; cases hf
    | ok dnsServers =>
      rw [hl] at hf
      simp only at hf
      by_cases hlt : dnsServers.length < 1
      · rw [if_pos hlt] at hf
        simp only [Outcome.ok.injEq] at hf
        exact ⟨by rw [← hf]; exact hdef, fun hn => (nomatch hn), fun _ _ _ => hf.symm, rfl⟩
      · rw [if_neg hlt] at hf
        simp only [Outcome.ok.injEq] at hf
        subst hf
        refine ⟨?_, fun hn => (nomatch hn), ?_, rfl⟩
        · intro hnil
          rw [hnil] at hlt
          exact hlt (by decide)
        · intro items2 hi hshort
          cases hi
          have := forwardersLoop_no_valid items [] _ hshort hl
          rw [this] at hlt
          exact absurd (by decide) hlt

/-- Witness of C14: no entry of "forwarders" has a host that can be kept, and
the configuration gets the nine default servers. -/
theorem forwarders_are_never_empty_witness :
    parseConfigFile (envOf noEndpointDoc) "config.json" = .ok
      { Host := "localhost", Port := 1234, Forwarders := setupDefaultDNSForwardingServers,
        Filters := [], Logfile := "" } ∧
    setupDefaultDNSForwardingServers ≠ [] ∧
    setupDefaultDNSForwardingServers.length = 9 :=
  have h := forwarders_are_never_empty (envOf noEndpointDoc) "config.json" noEndpointDoc
    { Host := "localhost", Port := 1234, Forwarders := setupDefaultDNSForwardingServers,
      Filters := [], Logfile := "" } rfl (by decide)
  ⟨by decide, h.1, h.2.2.2⟩

/-- C15, counterexample: the only forwarder entry has the protocol "http", but
its host "1.1.1" is shorter than `len("8.8.8.8")`, so the entry is skipped
before its protocol is looked at: parseConfigFile returns a configuration, with
the default forwarders, and no error. -/
theorem invalid_protocol_on_short_host_is_accepted :
    assertSlice (index shortHostDoc "forwarders")
      = some [.object [("host", .string "1.1.1"), ("protocol", .string "http")]] ∧
    assertString (index [("host", JSON.string "1.1.1"), ("protocol", JSON.string "http")]
      "protocol") = some "http" ∧
    parseConfigFile (envOf shortHostDoc) "config.json" = .ok
      { Host := "localhost", Port := 1234, Forwarders := setupDefaultDNSForwardingServers,
        Filters := [], Logfile := "" } :=
  ⟨rfl, rfl, by decide⟩

/-- C15, amended: when the decoded document has a "forwarders" array whose
entries are all maps, and one entry has a host string of at least
`len("8.8.8.8")` bytes and a protocol string other than "udp" and "tcp",
parseConfigFile returns the invalid-protocol error, and no configuration. -/
theorem invalid_protocol_on_kept_host_is_fatal (env : ConfigEnv) (configPath : String)
    (configMap : List (String × JSON)) (items : List JSON)
    (fields : List (String × JSON)) (h p : String)
    (hload : env.load configPath = .ok configMap)
    (hitems : assertSlice (index configMap "forwarders") = some items)
    (hobj : ∀ entry ∈ items, ∃ fs, entry = JSON.object fs)
    (hmem : JSON.object fields ∈ items)
    (hhost : assertString (index fields "host") = some h)
    (hlen : len "8.8.8.8" ≤ len h)
    (hproto : assertString (index fields "protocol") = some p)
    (hp : p ≠ "udp" ∧ p ≠ "tcp") :
    ∃ p2 h2, (p2 ≠ "udp" ∧ p2 ≠ "tcp") ∧
      parseConfigFile env configPath = .error (.invalidProtocol p2 h2) := by
  obtain ⟨p2, h2, hp2, hl⟩ :=
    forwardersLoop_invalid_protocol items [] fields h p hobj hmem hhost hlen hproto hp
  refine ⟨p2, h2, hp2, ?_⟩
  apply parseConfigFile_forwarders_error env configPath configMap _ hload
  unfold parseForwarders
  rw [hitems]
  simp only [hl]

/-- Witness of the amended C15: the second forwarder "9.9.9.9" asks for the
protocol "http". -/
theorem invalid_protocol_on_kept_host_is_fatal_witness :
    ∃ p2 h2, (p2 ≠ "udp" ∧ p2 ≠ "tcp") ∧
      parseConfigFile (envOf badProtocolDoc) "config.json" = .error (.invalidProtocol p2 h2) :=
  invalid_protocol_on_kept_host_is_fatal (envOf badProtocolDoc) "config.json" badProtocolDoc
    [.object [("host", .string "8.8.8.8")],
     .object [("host", .string "9.9.9.9"), ("protocol", .string "http")]]
    [("host", .string "9.9.9.9"), ("protocol", .string "http")] "9.9.9.9" "http"
    rfl rfl
    (by
      intro entry he
      simp only [List.mem_cons, List.mem_singleton, List.not_mem_nil, or_false] at he
      rcases he with rfl | rfl <;> exact ⟨_, rfl⟩)
    (List.mem_cons_of_mem _ (List.mem_cons_self _ _)) rfl (by decide) rfl (by decide)

/-- C16: when the entries of "forwarders" and "filters" are all maps and a
filter entry has a host string of at least `len("a.io")` bytes, a type string
other than "ALL", and a "matching" that is no string or a string other than
"contains" and "exact", parseConfigFile returns an error and no configuration.
A filter entry with such a host whose type is "ALL" or is no string is
admitted without a look at "matching". -/
theorem missing_matching_mode_is_fatal (env : ConfigEnv) (configPath : String)
    (configMap : List (String × JSON)) (items : List JSON)
    (fields : List (String × JSON)) (h t : String)
    (hload : env.load configPath = .ok configMap)
    (hfw : ∀ fitems, assertSlice (index configMap "forwarders") = some fitems →
      ∀ entry ∈ fitems, ∃ fs, entry = JSON.object fs)
    (hitems : assertSlice (index configMap "filters") = some items)
    (hobj : ∀ entry ∈ items, ∃ fs, entry = JSON.object fs)
    (hmem : JSON.object fields ∈ items)
    (hhost : assertString (index fields "host") = some h)
    (hlen : len "a.io" ≤ len h)
    (htype : assertString (index fields "type") = some t)
    (ht : t ≠ "ALL")
    (hmatch : ∀ m, assertString (index fields "matching") = some m →
      m ≠ "contains" ∧ m ≠ "exact") :
    (∃ e, parseConfigFile env configPath = .error e) ∧
    (∀ (fields2 : List (String × JSON)) (h2 : String) (rest : List JSON) (acc : List DNSFilter),
      assertString (index fields2 "host") = some h2 → len "a.io" ≤ len h2 →
      (assertString (index fields2 "type") = none ∨
        assertString (index fields2 "type") = some "ALL") →
      filtersLoop (.object fields2 :: rest) acc
        = filtersLoop rest (acc ++ [⟨h2, TypeANY, false⟩])) := by
  constructor
  · obtain ⟨e, he⟩ :=
      filtersLoop_matching_required items [] fields h t hobj hmem hhost hlen htype ht hmatch
    apply parseConfigFile_filters_error env configPath configMap e hload
    · unfold parseForwarders
      cases hs : assertSlice (index configMap "forwarders") with
      | none => simp
      | some fitems =>
        have hnp := forwardersLoop_no_panic fitems [] (hfw fitems hs)
        simp only
        cases hl : forwardersLoop fitems [] with
        | ok dnsServers => simp only; split <;> simp
        | error e1 => simp
        | panic => exact absurd hl hnp
    · unfold parseFilters
      rw [hitems]
      exact he
  · intro fields2 h2 rest acc hh hl hty
    exact filtersLoop_type_all fields2 rest acc h2 hh hl hty

/-- Witness of C16: the filter "ads.example.com" of type "A" has no matching
mode. -/
theorem missing_matching_mode_is_fatal_witness :
    (∃ e, parseConfigFile (envOf missingMatchingDoc) "config.json" = .error e) ∧
    parseConfigFile (envOf missingMatchingDoc) "config.json"
      = .error (.missingMatching "ads.example.com") :=
  ⟨(missing_matching_mode_is_fatal (envOf missingMatchingDoc) "config.json" missingMatchingDoc
      [.object [("host", .string "ads.example.com"), ("type", .string "A")]]
      [("host", .string "ads.example.com"), ("type", .string "A")] "ads.example.com" "A"
      rfl (fun _ hf => nomatch hf) rfl
      (by
        intro entry he
        simp only [List.mem_singleton] at he
        exact ⟨_, he⟩)
      (List.mem_cons_self _ _) rfl (by decide) rfl (by decide)
      (fun _ hm => nomatch hm)).1,
   by decide⟩

/-- C17: whenever parseConfigFile returns a configuration, every rule of its
filter list has a host of at least `len("a.io")` = 4 bytes, and the hosts of
the rules are, in order, the hosts of the entries of "filters" that have a
host string of at least that length: the other entries are dropped. -/
theorem admitted_filters_have_kept_hosts (env : ConfigEnv) (configPath : String)
    (configMap : List (String × JSON)) (c : DNSConfig)
    (hload : env.load configPath = .ok configMap)
    (hcfg : parseConfigFile env configPath = .ok c) :
    (∀ r ∈ c.Filters, len "a.io" ≤ len r.Host) ∧ len "a.io" = 4 ∧
    c.Filters.map (fun r => r.Host)
      = admittedHosts (match assertSlice (index configMap "filters") with
          | some items => items
          | none => []) := by
  have hf := (parseConfigFile_ok env configPath configMap c hload hcfg).2
  unfold parseFilters at hf
  have hmap : c.Filters.map (fun r => r.Host)
      = admittedHosts (match assertSlice (index configMap "filters") with
          | some items => items
          | none => []) := by
    cases hs : assertSlice (index configMap "filters") with
    | none =>
      rw [hs] at hf
      simp only [Outcome.ok.injEq] at hf
      rw [← hf]
      rfl
    | some items =>
      rw [hs] at hf
      simp only at hf
      simpa using filtersLoop_hosts items [] c.Filters hf
  refine ⟨?_, by decide, hmap⟩
  intro r hr
  apply admittedHosts_len _ r.Host
  rw [← hmap]
  exact List.mem_map.2 ⟨r, hr, rfl⟩

/-- Witness of C17: of the four filter entries of `sampleDoc` the one with the
host "a.b" and the one without host are dropped. -/
theorem admitted_filters_have_kept_hosts_witness :
    parseConfigFile (envOf sampleDoc) "config.json" = .ok
      { Host := "127.0.0.1", Port := 1234,
        Forwarders := [⟨"9.9.9.9", 53, "tcp"⟩, ⟨"1.1.1.1", 53, "udp"⟩],
        Filters := [⟨"ads.example.com", TypeANY, false⟩, ⟨"tracker.example.net", TypeA, true⟩],
        Logfile := "" } ∧
    (∀ r ∈ [(⟨"ads.example.com", TypeANY, false⟩ : DNSFilter),
            ⟨"tracker.example.net", TypeA, true⟩], len "a.io" ≤ len r.Host) :=
  ⟨by decide,
   (admitted_filters_have_kept_hosts (envOf sampleDoc) "config.json" sampleDoc
      { Host := "127.0.0.1", Port := 1234,
        Forwarders := [⟨"9.9.9.9", 53, "tcp"⟩, ⟨"1.1.1.1", 53, "udp"⟩],
        Filters := [⟨"ads.example.com", TypeANY, false⟩, ⟨"tracker.example.net", TypeA, true⟩],
        Logfile := "" } rfl (by decide)).1⟩

/-- C19: whenever parseConfigFile returns a configuration, every server of its
forwarder list has the port 53, whatever the "port" of the entries: the
assertion to int64 fails on every decoded value, so the default is taken, and
the default servers have the port 53 too. -/
theorem forwarder_ports_are_always_53 (env : ConfigEnv) (configPath : String)
    (configMap : List (String × JSON)) (c : DNSConfig)
    (hload : env.load configPath = .ok configMap)
    (hcfg : parseConfigFile env configPath = .ok c) :
    ∀ s ∈ c.Forwarders, s.Port = 53 := by
  have hf := (parseConfigFile_ok env configPath configMap c hload hcfg).1
  unfold parseForwarders at hf
  have hdef : ∀ s ∈ setupDefaultDNSForwardingServers, s.Port = 53 := by decide
  cases hs : assertSlice (index configMap "forwarders") with
  | none =>
    rw [hs] at hf
    simp only [Outcome.ok.injEq] at hf
    rw [← hf]
    exact hdef
  | some items =>
    rw [hs] at hf
    simp only at hf
    cases hl : forwardersLoop items [] with
    | error e => rw [hl] at hf; cases hf
    | panic => rw [hl] at hf; cases hf
    | ok dnsServers =>
      rw [hl] at hf
      simp only at hf
      split at hf
      · simp only [Outcome.ok.injEq] at hf
        rw [← hf]
        exact hdef
      · simp only [Outcome.ok.injEq] at hf
        rw [← hf]
        exact forwardersLoop_ports items [] dnsServers hl (fun s hs => nomatch hs)

/-- Witness of C19: the first forwarder of `sampleDoc` asks for the port 5353
and gets the port 53. -/
theorem forwarder_ports_are_always_53_witness :
    assertFloat64 (index [("host", JSON.string "9.9.9.9"), ("port", JSON.number 5353),
      ("protocol", JSON.string "tcp")] "port") = some 5353 ∧
    ∀ s ∈ [(⟨"9.9.9.9", 53, "tcp"⟩ : DNSForwardingServer), ⟨"1.1.1.1", 53, "udp"⟩],
      s.Port = 53 :=
  ⟨rfl,
   forwarder_ports_are_always_53 (envOf sampleDoc) "config.json" sampleDoc
      { Host := "127.0.0.1", Port := 1234,
        Forwarders := [⟨"9.9.9.9", 53, "tcp"⟩, ⟨"1.1.1.1", 53, "udp"⟩],
        Filters := [⟨"ads.example.com", TypeANY, false⟩, ⟨"tracker.example.net", TypeA, true⟩],
        Logfile := "" } rfl (by decide)⟩

end DnsFilter
